import Mathlib

/-!
Verification of the RIG (Runtime Integration Gateway) core against its
specification.  The definitions below are a shallow embedding of the Python
sources in `packages/rig-core/rig_core/` (`runtime.py`, `registry.py`,
`policy.py`, `audit.py`, `rtp.py`, `secrets.py`).

Conventions of the embedding:
* Python `dict`s are association lists `List (String × β)`; the operations
  mirror `dict.get`, `dict.pop` and item assignment.
* JSON values are the inductive `Json`; `json.dumps(x, sort_keys=True,
  separators=(",", ":"))` is `render (canon x)` where `canon` sorts every
  object level by key and `render` prints compactly.
* `hashlib.sha256(...).hexdigest()` is `sha256hex` (a full SHA-256 over byte
  lists, hex output).
* External effects are an `Env` oracle: `jsonschema.validate` becomes the
  boolean field `validate` (with `validateMsg` for the exception text),
  `uuid.uuid4()` a stream `uuids` consumed via a counter, `time.time()` /
  `datetime.utcnow()` the streams `times` / `dates` consumed via a tick
  counter, and `os.environ.get` the map `getenv`.
* Two ghost fields instrument the state for the theorems: `implCalls` counts
  invocations of a tool implementation, `validateCalls` records each
  (instance, schema) pair passed to the schema validator.  No source
  behaviour depends on them.
-/

set_option maxRecDepth 1000000

/-! ## Byte-order comparison of strings (Python `sorted` on `str`) -/

/-- Code-point lexicographic `≤` on character lists, as Python compares
strings. -/
def charsLe : List Char → List Char → Bool
  | [], _ => true
  | _ :: _, [] => false
  | a :: as, b :: bs =>
    if a.toNat < b.toNat then true
    else if b.toNat < a.toNat then false
    else charsLe as bs

/-- Python's `s1 <= s2` on strings. -/
def strle (a b : String) : Bool := charsLe a.data b.data

/-- The order `strle` as a relation. -/
def strleR (a b : String) : Prop := strle a b = true

instance : DecidableRel strleR := fun a b => by unfold strleR; infer_instance

theorem charsLe_total (a b : List Char) : charsLe a b = true ∨ charsLe b a = true := by
  induction a generalizing b with
  | nil => left; simp [charsLe]
  | cons x xs ih =>
    cases b with
    | nil => right; simp [charsLe]
    | cons y ys =>
      by_cases hxy : x.toNat < y.toNat
      · left; simp [charsLe, hxy]
      · by_cases hyx : y.toNat < x.toNat
        · right; simp [charsLe, hyx]
        · rcases ih ys with h | h
          · left; simp [charsLe, hxy, hyx, h]
          · right; simp [charsLe, hxy, hyx, h]

theorem charsLe_cons {x y : Char} {xs ys : List Char} :
    charsLe (x :: xs) (y :: ys) = true ↔
      x.toNat < y.toNat ∨ (x.toNat = y.toNat ∧ charsLe xs ys = true) := by
  simp only [charsLe]
  by_cases h1 : x.toNat < y.toNat
  · simp [h1]
  · by_cases h2 : y.toNat < x.toNat
    · simp [h1, h2]
      omega
    · have heq : x.toNat = y.toNat := by omega
      simp [h1, h2, heq]

theorem charsLe_trans {a b c : List Char} (h1 : charsLe a b = true)
    (h2 : charsLe b c = true) : charsLe a c = true := by
  induction a generalizing b c with
  | nil => simp [charsLe]
  | cons x xs ih =>
    cases b with
    | nil => simp [charsLe] at h1
    | cons y ys =>
      cases c with
      | nil => simp [charsLe] at h2
      | cons z zs =>
        rw [charsLe_cons] at h1 h2 ⊢
        rcases h1 with h1 | ⟨h1e, h1r⟩
        · rcases h2 with h2 | ⟨h2e, _⟩
          · exact Or.inl (by omega)
          · exact Or.inl (by omega)
        · rcases h2 with h2 | ⟨h2e, h2r⟩
          · exact Or.inl (by omega)
          · exact Or.inr ⟨by omega, ih h1r h2r⟩

theorem charsLe_antisymm {a b : List Char} (h1 : charsLe a b = true)
    (h2 : charsLe b a = true) : a = b := by
  induction a generalizing b with
  | nil =>
    cases b with
    | nil => rfl
    | cons y ys => simp [charsLe] at h2
  | cons x xs ih =>
    cases b with
    | nil => simp [charsLe] at h1
    | cons y ys =>
      rw [charsLe_cons] at h1 h2
      rcases h1 with h1 | ⟨h1e, h1r⟩
      · rcases h2 with h2 | ⟨h2e, _⟩ <;> omega
      · rcases h2 with h2 | ⟨h2e, h2r⟩
        · omega
        · exact congrArg₂ List.cons (Char.ext (UInt32.toNat.inj h1e)) (ih h1r h2r)

theorem strleR_total (a b : String) : strleR a b ∨ strleR b a := charsLe_total a.data b.data

theorem strleR_trans {a b c : String} (h1 : strleR a b) (h2 : strleR b c) : strleR a c :=
  charsLe_trans h1 h2

theorem strleR_antisymm {a b : String} (h1 : strleR a b) (h2 : strleR b a) : a = b := by
  cases a with
  | mk da =>
    cases b with
    | mk db => exact congrArg String.mk (charsLe_antisymm h1 h2)

instance : IsTotal String strleR := ⟨strleR_total⟩

instance : IsTrans String strleR := ⟨fun _ _ _ => strleR_trans⟩

instance : IsAntisymm String strleR := ⟨fun _ _ => strleR_antisymm⟩

/-- Python's `sorted` on a list of strings. -/
def sortStrings (l : List String) : List String := List.insertionSort strleR l

/-! ## JSON values -/

/-- JSON values as produced and consumed by the Python sources.  Objects are
insertion-ordered key/value lists, as Python `dict`s are; well-formed objects
(those a `dict` can denote) have pairwise distinct keys. -/
inductive Json where
  | null : Json
  | bool (b : Bool) : Json
  | int (n : Int) : Json
  | str (s : String) : Json
  | arr (xs : List Json) : Json
  | obj (kvs : List (String × Json)) : Json

/-- Order on object entries used by `sort_keys=True`: compare keys. -/
def keyLE (p q : String × Json) : Prop := strleR p.1 q.1

instance : DecidableRel keyLE := fun p q => by unfold keyLE; infer_instance

instance : IsTotal (String × Json) keyLE := ⟨fun p q => strleR_total p.1 q.1⟩

instance : IsTrans (String × Json) keyLE := ⟨fun _ _ _ => strleR_trans⟩

/-- Sort the entries of one object level by key. -/
def sortPairs (l : List (String × Json)) : List (String × Json) :=
  List.insertionSort keyLE l

mutual
/-- Recursively sort every object level by key; `json.dumps(·, sort_keys=True)`
prints exactly the canonicalized tree. -/
def canon : Json → Json
  | .null => .null
  | .bool b => .bool b
  | .int n => .int n
  | .str s => .str s
  | .arr xs => .arr (canonList xs)
  | .obj kvs => .obj (sortPairs (canonPairs kvs))

def canonList : List Json → List Json
  | [] => []
  | x :: xs => canon x :: canonList xs

def canonPairs : List (String × Json) → List (String × Json)
  | [] => []
  | (k, v) :: rest => (k, canon v) :: canonPairs rest
end

/-- Lowercase hex digit of a value below 16. -/
def hexDigit (n : Nat) : Char := if n < 10 then Char.ofNat (48 + n) else Char.ofNat (87 + n)

/-- Four lowercase hex digits, big-endian, of a value below 2^16. -/
def hex4 (n : Nat) : List Char :=
  [hexDigit ((n >>> 12) % 16), hexDigit ((n >>> 8) % 16), hexDigit ((n >>> 4) % 16),
   hexDigit (n % 16)]

/-- Escape one character as CPython's `json.dumps` does with `ensure_ascii`
(the default): printable ASCII passes through, `"` `\` and the usual control
shorthands are backslash-escaped, everything else becomes `\uXXXX` (with a
surrogate pair above the BMP). -/
def escapeChar (c : Char) : List Char :=
  if c = '"' then ['\\', '"']
  else if c = '\\' then ['\\', '\\']
  else if c.toNat = 10 then ['\\', 'n']
  else if c.toNat = 9 then ['\\', 't']
  else if c.toNat = 13 then ['\\', 'r']
  else if c.toNat = 8 then ['\\', 'b']
  else if c.toNat = 12 then ['\\', 'f']
  else if 32 ≤ c.toNat ∧ c.toNat ≤ 126 then [c]
  else if c.toNat < 65536 then '\\' :: 'u' :: hex4 c.toNat
  else
    ('\\' :: 'u' :: hex4 (55296 + ((c.toNat - 65536) >>> 10))) ++
    ('\\' :: 'u' :: hex4 (56320 + ((c.toNat - 65536) % 1024)))

/-- JSON string literal: quotes around the escaped characters. -/
def renderString (s : String) : String :=
  String.mk ('"' :: s.data.foldr (fun c acc => escapeChar c ++ acc) ['"'])

mutual
/-- Compact JSON printing with separators `(",", ":")`, no key sorting;
composed with `canon` this is `json.dumps(·, sort_keys=True,
separators=(",", ":"))`. -/
def render : Json → String
  | .null => "null"
  | .bool b => if b then "true" else "false"
  | .int n => toString n
  | .str s => renderString s
  | .arr xs => "[" ++ renderList xs ++ "]"
  | .obj kvs => "\x7b" ++ renderPairs kvs ++ "\x7d"

def renderList : List Json → String
  | [] => ""
  | [x] => render x
  | x :: xs => render x ++ "," ++ renderList xs

def renderPairs : List (String × Json) → String
  | [] => ""
  | [(k, v)] => renderString k ++ ":" ++ render v
  | (k, v) :: rest => renderString k ++ ":" ++ render v ++ "," ++ renderPairs rest
end

/-- Canonical JSON encoding used by both hash functions of the source:
`json.dumps(x, sort_keys=True, separators=(",", ":"))`. -/
def dumpsCanonical (j : Json) : String := render (canon j)

/-- UTF-8 bytes of one character (`str.encode`). -/
def utf8Char (c : Char) : List Nat :=
  let n := c.toNat
  if n < 128 then [n]
  else if n < 2048 then [192 + n / 64, 128 + n % 64]
  else if n < 65536 then [224 + n / 4096, 128 + (n / 64) % 64, 128 + n % 64]
  else [240 + n / 262144, 128 + (n / 4096) % 64, 128 + (n / 64) % 64, 128 + n % 64]

/-- UTF-8 bytes of a string (`str.encode("utf-8")`). -/
def strBytes (s : String) : List Nat := s.data.foldr (fun c acc => utf8Char c ++ acc) []

/-! ## SHA-256 (`hashlib.sha256(...).hexdigest()`) -/

/-- Truncation to a 32-bit word. -/
def w32 (n : Nat) : Nat := n % 4294967296

/-- Right rotation of a 32-bit word. -/
def rotr32 (n x : Nat) : Nat := w32 ((x >>> n) ||| (x <<< (32 - n)))

def bsig0 (x : Nat) : Nat := (rotr32 2 x) ^^^ (rotr32 13 x) ^^^ (rotr32 22 x)

def bsig1 (x : Nat) : Nat := (rotr32 6 x) ^^^ (rotr32 11 x) ^^^ (rotr32 25 x)

def ssig0 (x : Nat) : Nat := (rotr32 7 x) ^^^ (rotr32 18 x) ^^^ (x >>> 3)

def ssig1 (x : Nat) : Nat := (rotr32 17 x) ^^^ (rotr32 19 x) ^^^ (x >>> 10)

/-- The 64 SHA-256 round constants. -/
def shaK : List Nat := [
  1116352408, 1899447441, 3049323471, 3921009573, 961987163, 1508970993,
  2453635748, 2870763221, 3624381080, 310598401, 607225278, 1426881987,
  1925078388, 2162078206, 2614888103, 3248222580, 3835390401, 4022224774,
  264347078, 604807628, 770255983, 1249150122, 1555081692, 1996064986,
  2554220882, 2821834349, 2952996808, 3210313671, 3336571891, 3584528711,
  113926993, 338241895, 666307205, 773529912, 1294757372, 1396182291,
  1695183700, 1986661051, 2177026350, 2456956037, 2730485921, 2820302411,
  3259730800, 3345764771, 3516065817, 3600352804, 4094571909, 275423344,
  430227734, 506948616, 659060556, 883997877, 958139571, 1322822218,
  1537002063, 1747873779, 1955562222, 2024104815, 2227730452, 2361852424,
  2428436474, 2756734187, 3204031479, 3329325298]

/-- SHA-256 working state: eight 32-bit words. -/
structure H8 where
  a : Nat
  b : Nat
  c : Nat
  d : Nat
  e : Nat
  f : Nat
  g : Nat
  h : Nat

/-- SHA-256 initial hash value. -/
def initH : H8 :=
  ⟨1779033703, 3144134277, 1013904242, 2773480762,
   1359893119, 2600822924, 528734635, 1541459225⟩

/-- Big-endian 32-bit words from bytes. -/
def toWords : List Nat → List Nat
  | b0 :: b1 :: b2 :: b3 :: rest => ((b0 <<< 24) ||| (b1 <<< 16) ||| (b2 <<< 8) ||| b3) :: toWords rest
  | _ => []

/-- Extend the 16-word message schedule by the given number of words. -/
def buildW (acc : List Nat) : Nat → List Nat
  | 0 => acc
  | f + 1 =>
    let i := acc.length
    let nw := w32 (ssig1 (acc.getD (i - 2) 0) + acc.getD (i - 7) 0 +
      ssig0 (acc.getD (i - 15) 0) + acc.getD (i - 16) 0)
    buildW (acc ++ [nw]) f

/-- One SHA-256 round. -/
def compressStep (st : H8) (kw : Nat × Nat) : H8 :=
  let ch := (st.e &&& st.f) ^^^ ((4294967295 ^^^ st.e) &&& st.g)
  let maj := (st.a &&& st.b) ^^^ (st.a &&& st.c) ^^^ (st.b &&& st.c)
  let t1 := w32 (st.h + bsig1 st.e + ch + kw.1 + kw.2)
  let t2 := w32 (bsig0 st.a + maj)
  ⟨w32 (t1 + t2), st.a, st.b, st.c, w32 (st.d + t1), st.e, st.f, st.g⟩

/-- Word-wise modular addition of states. -/
def addH (x y : H8) : H8 :=
  ⟨w32 (x.a + y.a), w32 (x.b + y.b), w32 (x.c + y.c), w32 (x.d + y.d),
   w32 (x.e + y.e), w32 (x.f + y.f), w32 (x.g + y.g), w32 (x.h + y.h)⟩

/-- Process one 64-byte block. -/
def processBlock (st : H8) (block : List Nat) : H8 :=
  let ws := buildW (toWords block) 48
  addH st ((shaK.zip ws).foldl compressStep st)

/-- Big-endian 8-byte encoding of the bit length. -/
def beBytes8 (n : Nat) : List Nat :=
  [(n >>> 56) % 256, (n >>> 48) % 256, (n >>> 40) % 256, (n >>> 32) % 256,
   (n >>> 24) % 256, (n >>> 16) % 256, (n >>> 8) % 256, n % 256]

/-- SHA-256 padding: `0x80`, zeros to 56 mod 64, then the bit length. -/
def padMsg (msg : List Nat) : List Nat :=
  msg ++ [128] ++ List.replicate ((119 - msg.length % 64) % 64) 0 ++ beBytes8 (msg.length * 8)

/-- Fold over the 64-byte blocks; the fuel is an upper bound on the number of
blocks and the padded message length is always a multiple of 64. -/
def shaBlocks (st : H8) (l : List Nat) (fuel : Nat) : H8 :=
  match fuel, l with
  | _, [] => st
  | 0, _ => st
  | f + 1, l => shaBlocks (processBlock st (l.take 64)) (l.drop 64) f

/-- Eight lowercase hex digits of a 32-bit word. -/
def wordHex (x : Nat) : List Char :=
  [hexDigit ((x >>> 28) % 16), hexDigit ((x >>> 24) % 16), hexDigit ((x >>> 20) % 16),
   hexDigit ((x >>> 16) % 16), hexDigit ((x >>> 12) % 16), hexDigit ((x >>> 8) % 16),
   hexDigit ((x >>> 4) % 16), hexDigit (x % 16)]

/-- The 64-character hex digest of a final state. -/
def digestHex (st : H8) : String :=
  String.mk (wordHex st.a ++ wordHex st.b ++ wordHex st.c ++ wordHex st.d ++
             wordHex st.e ++ wordHex st.f ++ wordHex st.g ++ wordHex st.h)

/-- SHA-256 hex digest of a byte list, as `hashlib.sha256(b).hexdigest()`. -/
def sha256hex (msg : List Nat) : String :=
  digestHex (shaBlocks initH (padMsg msg) (padMsg msg).length)

/-! ## The two hash functions of the source -/

/-- Embedding of `compute_input_hash` (`rig_core/audit.py`): SHA-256 of the
sorted-key compact JSON encoding of the arguments, UTF-8 encoded. -/
def compute_input_hash (args : Json) : String :=
  sha256hex (strBytes (dumpsCanonical args))

/-- A registered tool definition (`rig_core/rtp.py`, `ToolDef`).  The three
schemas are JSON-Schema documents kept as JSON data; their meaning as
validators is the `validate` oracle of `Env` below. -/
structure ToolDef where
  name : String
  description : String := ""
  input_schema : Json
  output_schema : Json
  error_schema : Json
  auth_slots : List String := []
  risk_class : String := "read"
  tags : List String := []

/-- Payload entry of `ToolRegistry.compute_interface_hash`: the tuple
`(t.name, t.input_schema, t.output_schema, t.error_schema)` (a JSON array
after `json.dumps`). -/
def toolPayload (t : ToolDef) : Json :=
  .arr [.str t.name, t.input_schema, t.output_schema, t.error_schema]

/-- Python `dict.get` on an association list. -/
def alistFind {β : Type} (l : List (String × β)) (k : String) : Option β :=
  match l.find? (fun p => p.1 == k) with
  | some p => some p.2
  | none => none

/-- Embedding of `ToolRegistry.compute_interface_hash` (`rig_core/registry.py`):
SHA-256 of the canonical JSON of the name-sorted payload list. -/
def ToolRegistry.compute_interface_hash (tools : List (String × ToolDef)) : String :=
  let names := sortStrings (tools.map Prod.fst)
  let payload := Json.arr (names.map (fun n =>
    match alistFind tools n with
    | some t => toolPayload t
    | none => Json.null))
  sha256hex (strBytes (dumpsCanonical payload))

/-! ## Runtime data model (`rig_core/rtp.py`, `rig_core/policy.py`) -/

/-- The closed error taxonomy (`ErrorType` in `rtp.py`). -/
inductive ErrorType where
  | validation_error
  | auth_error
  | permission_error
  | not_found
  | conflict
  | rate_limited
  | transient
  | timeout
  | upstream_error
  | policy_blocked
  | approval_required
  | internal_error
deriving DecidableEq, Repr

/-- Risk classes (`RiskClass` in `rtp.py`). -/
inductive RiskClass where
  | read
  | write
  | infra
  | money
  | destructive
deriving DecidableEq, Repr

/-- Per-call context (`CallContext` in `rtp.py`, a `TypedDict` with all keys
optional; `none` is an absent key). -/
structure CallContext where
  tenant_id : Option String := none
  request_id : Option String := none
  actor : Option String := none

/-- Typed tool error (`ToolError` in `rtp.py`). -/
structure ToolError where
  type : ErrorType
  message : String
  retryable : Bool := false
  upstream_code : Option String := none
  remediation_hints : List String := []
  correlation_id : Option String := none

/-- Result envelope (`ToolResult` in `rtp.py`). -/
structure ToolResult where
  ok : Bool
  output : Option Json := none
  error : Option ToolError := none
  correlation_id : Option String := none
  pack : Option String := none
  pack_version : Option String := none
  interface_hash : Option String := none
  pack_set_version : Option String := none

/-- Tool definition with the risk class as the closed enumeration (the
hashing-related `ToolDef` above keeps it as a plain string; the runtime only
consults `risk_class` through `Policy.needs_approval`). -/
structure RtToolDef where
  name : String
  description : String := ""
  input_schema : Json
  output_schema : Json
  error_schema : Json
  auth_slots : List String := []
  risk_class : RiskClass := .read

/-- Policy (`rig_core/policy.py`) with its defaults. -/
structure Policy where
  allowed_tools : Option (List String) := none
  require_approval_for : List RiskClass := [.money, .infra, .destructive]
  timeout_seconds : Nat := 30
  retries : Int := 1

/-- `Policy.is_tool_allowed`: absent allow-list means everything is allowed. -/
def Policy.is_tool_allowed (p : Policy) (tool_name : String) : Bool :=
  match p.allowed_tools with
  | none => true
  | some s => s.contains tool_name

/-- `Policy.needs_approval`: membership of the risk class. -/
def Policy.needs_approval (p : Policy) (risk : RiskClass) : Bool :=
  p.require_approval_for.contains risk

/-! ## Runtime pipeline (`rig_core/runtime.py`) -/

/-- Outcome of one invocation of a tool implementation.  `raiseTyped` is the
`RigToolRaised` channel, `raiseGeneric` any other exception. -/
inductive ImplOutcome where
  | ok (out : Json)
  | raiseTyped (err : ToolError)
  | raiseGeneric (msg : String)

/-- A tool implementation `(args, secrets, ctx) → output`.  The trailing
natural number is the 1-based invocation attempt inside one `_execute`,
letting an implementation behave differently across retries (Python
implementations can carry hidden state). -/
def ToolImpl : Type := Json → List (String × String) → CallContext → Nat → ImplOutcome

/-- `RegisteredTool` (`runtime.py`). -/
structure RegisteredTool where
  tool : RtToolDef
  impl : ToolImpl
  pack : String := "local"
  pack_version : String := "dev"

/-- A pending approval record `{tool_name, args, ctx}`. -/
structure Pending where
  tool_name : String
  args : Json
  ctx : CallContext

/-- Audit outcome values (`EventOutcome` in `audit.py`). -/
inductive EventOutcome where
  | ok
  | error
  | approval_required
  | policy_denied
deriving DecidableEq, Repr

/-- Audit event (`AuditEvent` in `audit.py`). -/
structure AuditEvent where
  timestamp : String
  tenant_id : String
  run_id : String
  tool : String
  input_hash : String
  outcome : EventOutcome
  duration_ms : Nat
  redacted_auth_marker : Option String := none
  ts_unix : Option Nat := none
  error_type : Option ErrorType := none
  pack : Option String := none
  pack_version : Option String := none
  interface_hash : Option String := none
  args_sanitized : Option Json := none

/-- The runtime's external collaborators, modelled as oracles: the JSON-Schema
validator (with its exception text), the UUID stream behind `uuid.uuid4()`,
the clock behind `time.time()` (milliseconds), the timestamp formatter behind
`datetime.utcnow().isoformat()`, and the process environment. -/
structure Env where
  validate : Json → Json → Bool
  validateMsg : Json → Json → String
  uuids : Nat → String
  times : Nat → Nat
  dates : Nat → String
  getenv : String → Option String

/-- Full state of a `RigRuntime` instance: policy, approval store, optional
audit log (the list of written events), the registered tools, snapshot
metadata, the oracle consumption counters, and the two ghost instrumentation
fields (`implCalls`, `validateCalls`). -/
structure RuntimeState where
  policy : Policy
  approvals : List (String × Pending) := []
  auditEvents : Option (List AuditEvent) := none
  tools : List (String × RegisteredTool) := []
  interface_hash : String := "dev"
  pack_set_version : String := "dev"
  uuidCtr : Nat := 0
  tick : Nat := 0
  implCalls : Nat := 0
  validateCalls : List (Json × Json) := []

/-- Number of audit events written so far (0 when no audit log is
configured). -/
def auditLen (s : RuntimeState) : Nat := (s.auditEvents.getD []).length

/-- `SecretsStore.resolve` (`rig_core/secrets.py`): environment lookups,
omitting unset or falsy slots.  The tenant id is accepted and ignored, as in
the source. -/
def SecretsStore.resolve (env : Env) (slots : List String)
    (tenant_id : Option String) : List (String × String) :=
  match tenant_id with
  | _ => slots.filterMap (fun sl =>
      match env.getenv sl with
      | some v => if v = "" then none else some (sl, v)
      | none => none)

/-- Python's `str.startswith`. -/
def pyStartswith (s pat : String) : Bool := go s.data pat.data
where
  go : List Char → List Char → Bool
    | _, [] => true
    | [], _ :: _ => false
    | c :: cs, p :: ps => c == p && go cs ps

/-- Observe `time.time()`: the clock value at the current tick, advancing the
tick counter. -/
def observeTime (env : Env) (s : RuntimeState) : Nat × RuntimeState :=
  (env.times s.tick, { s with tick := s.tick + 1 })

/-- Draw a fresh UUID string from the oracle. -/
def freshUuid (env : Env) (s : RuntimeState) : String × RuntimeState :=
  (env.uuids s.uuidCtr, { s with uuidCtr := s.uuidCtr + 1 })

/-- The correlation id: `ctx.get("request_id") or str(uuid.uuid4())` (Python
`or` rejects the empty string as falsy). -/
def correlationOf (env : Env) (s : RuntimeState) (ctx : CallContext) : String × RuntimeState :=
  match ctx.request_id with
  | some r => if r = "" then freshUuid env s else (r, s)
  | none => freshUuid env s

/-- `ApprovalStore.create`: a fresh token mapping to `{tool_name, args, ctx}`
(dictionary item assignment replaces any entry with the same key). -/
def ApprovalStore.create (env : Env) (s : RuntimeState) (tool_name : String)
    (args : Json) (ctx : CallContext) : String × RuntimeState :=
  let (token, s) := freshUuid env s
  (token, { s with approvals :=
    (token, ⟨tool_name, args, ctx⟩) :: s.approvals.filter (fun p => !(p.1 == token)) })

/-- `ApprovalStore.pop`: `dict.pop(token, None)` — return the record, if
present, and remove it. -/
def ApprovalStore.pop (s : RuntimeState) (token : String) : Option Pending × RuntimeState :=
  (alistFind s.approvals token,
   { s with approvals := s.approvals.filter (fun p => !(p.1 == token)) })

/-- `RigRuntime._get_auth_marker`: the redacted marker derived from the first
declared auth slot.  Never a secret value; the tenant id is unused in v0. -/
def RigRuntime.get_auth_marker (auth_slots : List String)
    (tenant_id : Option String) : Option String :=
  match auth_slots with
  | [] => none
  | first_slot :: _ =>
    if pyStartswith first_slot "env:" || pyStartswith first_slot "ENV:" then some first_slot
    else some ("env:" ++ first_slot)

/-- The audit event that `RigRuntime._audit` hands to `now_event`: outcome
classification, required fields with their "unknown" fallbacks, and the
provenance carried over from the result. -/
def auditEventOf (env : Env) (s : RuntimeState) (tool_name : String)
    (args : Json) (ctx : CallContext) (result : ToolResult) (duration_ms : Nat)
    (auth_marker : Option String) : AuditEvent :=
  let outcome : EventOutcome :=
    if result.ok then .ok
    else match result.error with
      | some e =>
        if e.type = .approval_required then .approval_required
        else if e.type = .policy_blocked then .policy_denied
        else .error
      | none => .error
  let tenant_id := match ctx.tenant_id with
    | some t => if t = "" then "unknown" else t
    | none => "unknown"
  let run_id := match result.correlation_id with
    | some c => if c = "" then "unknown" else c
    | none => "unknown"
  { timestamp := env.dates s.tick
    tenant_id := tenant_id
    run_id := run_id
    tool := tool_name
    input_hash := compute_input_hash args
    outcome := outcome
    duration_ms := duration_ms
    redacted_auth_marker := auth_marker
    ts_unix := some (env.times s.tick)
    error_type := result.error.map (fun e => e.type)
    pack := result.pack
    pack_version := result.pack_version
    interface_hash := result.interface_hash
    args_sanitized := some args }

/-- `RigRuntime._audit`: build the event exactly as `now_event` receives it
and append it — unless no audit log is configured, in which case nothing is
written.  `datetime.utcnow()` and `time.time()` are read at the current tick. -/
def RigRuntime.auditWrite (env : Env) (s : RuntimeState) (tool_name : String)
    (args : Json) (ctx : CallContext) (result : ToolResult) (duration_ms : Nat)
    (auth_marker : Option String) : RuntimeState :=
  match s.auditEvents with
  | none => s
  | some log =>
    { s with
      auditEvents := some (log ++ [auditEventOf env s tool_name args ctx result duration_ms auth_marker])
      tick := s.tick + 1 }

/-- Terminal step shared by every branch of `call` and the audited branch of
`approve_and_call`: write the audit event, return the result. -/
def RigRuntime.audited (env : Env) (s : RuntimeState) (tool_name : String)
    (args : Json) (ctx : CallContext) (result : ToolResult) (duration_ms : Nat)
    (auth_marker : Option String) : ToolResult × RuntimeState :=
  (result, RigRuntime.auditWrite env s tool_name args ctx result duration_ms auth_marker)

/-- The retry loop of `RigRuntime._execute`.  `attempts` counts invocations
already made; the fuel starts at `retries.toNat + 1` and the zero-fuel branch
is unreachable (each recursion happens only while `attempts + 1 ≤
max(0, retries)`).  The ghost `implCalls` counter increments at each
invocation and `validateCalls` records the output-schema validation. -/
def RigRuntime.execGo (env : Env) (reg : RegisteredTool) (args : Json)
    (secrets : List (String × String)) (ctx : CallContext) (corr : String) :
    Nat → Nat → RuntimeState → ToolResult × RuntimeState
  | fuel, attempts, s =>
    let attempts := attempts + 1
    let s := { s with implCalls := s.implCalls + 1 }
    match reg.impl args secrets ctx attempts with
    | .ok out =>
      let s := { s with validateCalls := s.validateCalls ++ [(out, reg.tool.output_schema)] }
      if env.validate out reg.tool.output_schema then
        ({ ok := true
           output := some out
           correlation_id := some corr
           pack := some reg.pack
           pack_version := some reg.pack_version
           interface_hash := some s.interface_hash
           pack_set_version := some s.pack_set_version }, s)
      else
        ({ ok := false
           error := some { type := .internal_error
                           message := "output schema mismatch: " ++ env.validateMsg out reg.tool.output_schema
                           correlation_id := some corr }
           correlation_id := some corr
           pack := some reg.pack
           pack_version := some reg.pack_version
           interface_hash := some s.interface_hash
           pack_set_version := some s.pack_set_version }, s)
    | .raiseTyped rte =>
      let err := if rte.correlation_id.getD "" = "" then { rte with correlation_id := some corr } else rte
      ({ ok := false
         error := some err
         correlation_id := some corr
         pack := some reg.pack
         pack_version := some reg.pack_version
         interface_hash := some s.interface_hash
         pack_set_version := some s.pack_set_version }, s)
    | .raiseGeneric msg =>
      let upstream : ToolResult :=
        { ok := false
          error := some { type := .upstream_error, message := msg, retryable := false
                          correlation_id := some corr }
          correlation_id := some corr
          pack := some reg.pack
          pack_version := some reg.pack_version
          interface_hash := some s.interface_hash
          pack_set_version := some s.pack_set_version }
      if attempts ≤ s.policy.retries.toNat then
        match fuel with
        | f + 1 => RigRuntime.execGo env reg args secrets ctx corr f attempts s
        | 0 => (upstream, s)
      else (upstream, s)

/-- `RigRuntime._execute`: run the implementation with the retry loop. -/
def RigRuntime.execute (env : Env) (reg : RegisteredTool) (args : Json)
    (secrets : List (String × String)) (ctx : CallContext) (corr : String)
    (s : RuntimeState) : ToolResult × RuntimeState :=
  RigRuntime.execGo env reg args secrets ctx corr (s.policy.retries.toNat + 1) 0 s

/-- Shared tail of `call` and `approve_and_call` once all gates have passed:
resolve secrets and the redacted marker, run `_execute`, take the end time and
write the audit event.  `t0` is the start time captured at entry. -/
def RigRuntime.execAndAudit (env : Env) (reg : RegisteredTool) (tool_name : String)
    (args : Json) (ctx : CallContext) (corr : String) (t0 : Nat) (s : RuntimeState) :
    ToolResult × RuntimeState :=
  let secrets := SecretsStore.resolve env reg.tool.auth_slots ctx.tenant_id
  let auth_marker := RigRuntime.get_auth_marker reg.tool.auth_slots ctx.tenant_id
  let (result, s) := RigRuntime.execute env reg args secrets ctx corr s
  let (t1, s) := observeTime env s
  RigRuntime.audited env s tool_name args ctx result (t1 - t0) auth_marker

/-- `RigRuntime.call`: the per-call pipeline — existence, policy, input
validation, approval gate, secrets, execution — each terminal branch writing
one audit event. -/
def RigRuntime.call (env : Env) (s : RuntimeState) (tool_name : String)
    (args : Json) (ctx : CallContext) : ToolResult × RuntimeState :=
  let (t0, s) := observeTime env s
  let (corr, s) := correlationOf env s ctx
  match alistFind s.tools tool_name with
  | none =>
    let (t1, s) := observeTime env s
    let result : ToolResult :=
      { ok := false
        error := some { type := .not_found, message := "tool not found", correlation_id := some corr }
        correlation_id := some corr }
    RigRuntime.audited env s tool_name args ctx result (t1 - t0) none
  | some reg =>
    if !(s.policy.is_tool_allowed tool_name) then
      let (t1, s) := observeTime env s
      let result : ToolResult :=
        { ok := false
          error := some { type := .policy_blocked, message := "tool not allowed by policy"
                          correlation_id := some corr }
          correlation_id := some corr
          pack := some reg.pack
          pack_version := some reg.pack_version
          interface_hash := some s.interface_hash
          pack_set_version := some s.pack_set_version }
      RigRuntime.audited env s tool_name args ctx result (t1 - t0) none
    else
      let s := { s with validateCalls := s.validateCalls ++ [(args, reg.tool.input_schema)] }
      if !(env.validate args reg.tool.input_schema) then
        let (t1, s) := observeTime env s
        let result : ToolResult :=
          { ok := false
            error := some { type := .validation_error
                            message := env.validateMsg args reg.tool.input_schema
                            correlation_id := some corr }
            correlation_id := some corr
            pack := some reg.pack
            pack_version := some reg.pack_version
            interface_hash := some s.interface_hash
            pack_set_version := some s.pack_set_version }
        RigRuntime.audited env s tool_name args ctx result (t1 - t0) none
      else if s.policy.needs_approval reg.tool.risk_class then
        let (t1, s) := observeTime env s
        let (token, s) := ApprovalStore.create env s tool_name args ctx
        let result : ToolResult :=
          { ok := false
            error := some { type := .approval_required
                            message := "approval required"
                            retryable := false
                            correlation_id := some corr
                            remediation_hints := ["approve token: " ++ token] }
            correlation_id := some corr
            pack := some reg.pack
            pack_version := some reg.pack_version
            interface_hash := some s.interface_hash
            pack_set_version := some s.pack_set_version }
        RigRuntime.audited env s tool_name args ctx result (t1 - t0) none
      else
        RigRuntime.execAndAudit env reg tool_name args ctx corr t0 s

/-- `RigRuntime.approve_and_call`: pop the token, re-resolve the tool and
secrets, execute, audit.  The two not-found early returns write no audit
event and carry no correlation id, exactly as the source does. -/
def RigRuntime.approve_and_call (env : Env) (s : RuntimeState) (token : String) :
    ToolResult × RuntimeState :=
  let (t0, s) := observeTime env s
  match ApprovalStore.pop s token with
  | (none, s) =>
    ({ ok := false, error := some { type := .not_found, message := "approval token not found" } }, s)
  | (some item, s) =>
    match alistFind s.tools item.tool_name with
    | none =>
      ({ ok := false, error := some { type := .not_found, message := "tool not found" } }, s)
    | some reg =>
      let (corr, s) := correlationOf env s item.ctx
      RigRuntime.execAndAudit env reg item.tool_name item.args item.ctx corr t0 s

/-- `RigRuntime.register`: reject duplicate implementations, otherwise add. -/
def RigRuntime.register (s : RuntimeState) (name : String) (reg : RegisteredTool) :
    RuntimeState × Option String :=
  if (alistFind s.tools name).isSome then (s, some ("duplicate tool impl: " ++ name))
  else ({ s with tools := s.tools ++ [(name, reg)] }, none)

/-! ## Tool registry (`rig_core/registry.py`) -/

/-- The in-memory tool catalog. -/
structure ToolRegistry where
  tools : List (String × ToolDef) := []
  pack_set_version : String := "dev"

/-- An immutable registry snapshot. -/
structure RegistrySnapshot where
  tools : List (String × ToolDef)
  interface_hash : String
  pack_set_version : String

/-- `ToolRegistry.register_tools`: add definitions one at a time, raising (the
returned message) at the first duplicate name.  Definitions added before the
duplicate stay registered — the loop mutates the catalog in place. -/
def ToolRegistry.register_tools (r : ToolRegistry) : List ToolDef → ToolRegistry × Option String
  | [] => (r, none)
  | t :: ts =>
    if (alistFind r.tools t.name).isSome then
      (r, some ("duplicate tool name: " ++ t.name))
    else ToolRegistry.register_tools { r with tools := r.tools ++ [(t.name, t)] } ts

/-- `ToolRegistry.get`: point lookup. -/
def ToolRegistry.get (r : ToolRegistry) (name : String) : Option ToolDef :=
  alistFind r.tools name

/-- `ToolRegistry.list_tools`: definitions in lexicographic name order. -/
def ToolRegistry.list_tools (r : ToolRegistry) : List ToolDef :=
  (sortStrings (r.tools.map Prod.fst)).filterMap (fun n => alistFind r.tools n)

/-- `ToolRegistry.snapshot`. -/
def ToolRegistry.snapshot (r : ToolRegistry) : RegistrySnapshot :=
  { tools := r.tools
    interface_hash := ToolRegistry.compute_interface_hash r.tools
    pack_set_version := r.pack_set_version }

/-! ## Shape of SHA-256 digests -/

/-- A lowercase hexadecimal character. -/
def isHexChar (c : Char) : Bool := ("0123456789abcdef".data).contains c

theorem isHexChar_hexDigit_mod (n : Nat) : isHexChar (hexDigit (n % 16)) = true := by
  have h : n % 16 < 16 := Nat.mod_lt _ (by norm_num)
  have hall : ∀ m : Fin 16, isHexChar (hexDigit m.val) = true := by decide
  exact hall ⟨n % 16, h⟩

/-- A 64-character lowercase hex string. -/
def isHex64 (s : String) : Prop := s.length = 64 ∧ s.data.all isHexChar = true

theorem sha256hex_isHex64 (msg : List Nat) : isHex64 (sha256hex msg) := by
  constructor
  · simp [sha256hex, digestHex, wordHex, String.length]
  · simp [sha256hex, digestHex, wordHex, isHexChar_hexDigit_mod]

/-! ## Association-list lemmas -/

theorem alistFind_cons {β : Type} (p : String × β) (l : List (String × β)) (k : String) :
    alistFind (p :: l) k = if p.1 == k then some p.2 else alistFind l k := by
  by_cases h : p.1 == k <;> simp [alistFind, List.find?_cons, h]

theorem alistFind_append {β : Type} (l1 l2 : List (String × β)) (k : String) :
    alistFind (l1 ++ l2) k =
      match alistFind l1 k with
      | some v => some v
      | none => alistFind l2 k := by
  induction l1 with
  | nil => simp [alistFind]
  | cons p l ih =>
    by_cases h : p.1 == k <;> simp [alistFind_cons, h, ih]

theorem alistFind_perm {β : Type} {l1 l2 : List (String × β)} (h : l1.Perm l2) :
    (l1.map Prod.fst).Nodup → ∀ k, alistFind l1 k = alistFind l2 k := by
  induction h with
  | nil => intro _ k; rfl
  | cons x h ih =>
    intro hnd k
    simp only [List.map_cons, List.nodup_cons] at hnd
    simp [alistFind_cons, ih hnd.2 k]
  | swap x y l =>
    intro hnd k
    simp only [List.map_cons, List.nodup_cons, List.mem_cons] at hnd
    by_cases hx : x.1 == k <;> by_cases hy : y.1 == k <;>
      simp [alistFind_cons, hx, hy]
    exact absurd (Or.inl ((eq_of_beq hy).trans (eq_of_beq hx).symm)) hnd.1
  | trans h1 h2 ih1 ih2 =>
    intro hnd k
    exact (ih1 hnd k).trans (ih2 (((h1.map Prod.fst).nodup_iff).mp hnd) k)

/-! ## Sorting is permutation-invariant -/

theorem sortStrings_perm_eq {l1 l2 : List String} (h : l1.Perm l2) :
    sortStrings l1 = sortStrings l2 :=
  List.eq_of_perm_of_sorted
    ((List.perm_insertionSort _ _).trans (h.trans (List.perm_insertionSort _ _).symm))
    (List.sorted_insertionSort _ _) (List.sorted_insertionSort _ _)

theorem sorted_keyLE_nodup_eq {p q : List (String × Json)} (hp : List.Sorted keyLE p)
    (hq : List.Sorted keyLE q) (hperm : p.Perm q) (hnd : (p.map Prod.fst).Nodup) :
    p = q := by
  induction p generalizing q with
  | nil => exact hperm.nil_eq
  | cons a p' ih =>
    cases q with
    | nil => exact absurd hperm.symm (by simp)
    | cons b q' =>
      rw [List.sorted_cons] at hp hq
      simp only [List.map_cons, List.nodup_cons] at hnd
      have hab : a = b := by
        have hamem : a ∈ b :: q' := hperm.subset (List.mem_cons_self a p')
        rcases List.mem_cons.mp hamem with he | ha'
        · exact he
        · have hbmem : b ∈ a :: p' := hperm.symm.subset (List.mem_cons_self b q')
          rcases List.mem_cons.mp hbmem with he | hb'
          · exact he.symm
          · have h1 : keyLE b a := hq.1 a ha'
            have h2 : keyLE a b := hp.1 b hb'
            have hk : a.1 = b.1 := strleR_antisymm h2 h1
            exact absurd (hk ▸ (List.mem_map_of_mem Prod.fst hb')) hnd.1
      subst hab
      exact congrArg (List.cons a) (ih hp.2 hq.2 hperm.cons_inv hnd.2)

theorem sortPairs_perm_eq {l1 l2 : List (String × Json)} (h : l1.Perm l2)
    (hnd : (l1.map Prod.fst).Nodup) : sortPairs l1 = sortPairs l2 :=
  sorted_keyLE_nodup_eq (List.sorted_insertionSort _ _) (List.sorted_insertionSort _ _)
    ((List.perm_insertionSort _ _).trans (h.trans (List.perm_insertionSort _ _).symm))
    (((List.perm_insertionSort keyLE l1).map Prod.fst).nodup_iff.mpr hnd)

/-! ## Equality of JSON mappings up to key order -/

mutual
/-- Two JSON values denote the same data up to object key order: equal
scalars, pointwise equivalent arrays, and objects with pairwise distinct keys
whose entry lists match up to a permutation, values again up to key order.
This is the spec's notion of "the same key-value pairs regardless of key
insertion order". -/
def jeqv : Json → Json → Prop
  | .null, .null => True
  | .bool a, .bool b => a = b
  | .int a, .int b => a = b
  | .str a, .str b => a = b
  | .arr xs, .arr ys => jeqvList xs ys
  | .obj ps, .obj qs =>
    (ps.map Prod.fst).Nodup ∧ (qs.map Prod.fst).Nodup ∧
      ∃ l, jeqvPairs ps l ∧ l.Perm qs
  | _, _ => False

def jeqvList : List Json → List Json → Prop
  | [], [] => True
  | x :: xs, y :: ys => jeqv x y ∧ jeqvList xs ys
  | _, _ => False

def jeqvPairs : List (String × Json) → List (String × Json) → Prop
  | [], [] => True
  | (k, v) :: ps, q :: qs => k = q.1 ∧ jeqv v q.2 ∧ jeqvPairs ps qs
  | _, _ => False
end

theorem canonPairs_eq_map (l : List (String × Json)) :
    canonPairs l = l.map (fun p => (p.1, canon p.2)) := by
  induction l with
  | nil => simp [canonPairs]
  | cons p rest ih =>
    cases p with
    | mk k v => simp [canonPairs, ih]

theorem canonPairs_keys (l : List (String × Json)) :
    (canonPairs l).map Prod.fst = l.map Prod.fst := by
  rw [canonPairs_eq_map, List.map_map]
  rfl

theorem jeqv_canon : ∀ a b, jeqv a b → canon a = canon b := by
  intro a b
  refine @jeqv.induct
    (fun a b => jeqv a b → canon a = canon b)
    (fun ps qs => jeqvPairs ps qs →
      canonPairs ps = canonPairs qs ∧ ps.map Prod.fst = qs.map Prod.fst)
    (fun xs ys => jeqvList xs ys → canonList xs = canonList ys)
    ?_ ?_ ?_ ?_ ?_ ?_ ?_ ?_ ?_ ?_ ?_ ?_ ?_ a b
  · intro _; rfl
  · intro a b h
    simp only [jeqv] at h
    rw [h]
  · intro a b h
    simp only [jeqv] at h
    rw [h]
  · intro a b h
    simp only [jeqv] at h
    rw [h]
  · intro xs ys ih h
    simp only [jeqv] at h
    simp only [canon, ih h]
  · intro ps qs ih h
    simp only [jeqv] at h
    obtain ⟨hndp, hndq, l, hpl, hperm⟩ := h
    obtain ⟨hceq, hkeys⟩ := ih l hpl
    have hperm2 : (canonPairs l).Perm (canonPairs qs) := by
      rw [canonPairs_eq_map, canonPairs_eq_map]
      exact hperm.map _
    have hnd2 : ((canonPairs l).map Prod.fst).Nodup := by
      rw [canonPairs_keys, ← hkeys]
      exact hndp
    simp only [canon]
    rw [hceq, sortPairs_perm_eq hperm2 hnd2]
  · intro t x h1 h2 h3 h4 h5 h6 hj
    exfalso
    cases t <;> cases x <;> simp only [jeqv] at hj <;> first
      | exact hj
      | exact h1 rfl rfl
      | exact h2 _ _ rfl rfl
      | exact h3 _ _ rfl rfl
      | exact h4 _ _ rfl rfl
      | exact h5 _ _ rfl rfl
      | exact h6 _ _ rfl rfl
  · intro _; rfl
  · intro x xs y ys ih1 ih2 h
    simp only [jeqvList] at h
    simp only [canonList, ih1 h.1, ih2 h.2]
  · intro t x h1 h2 hj
    exfalso
    cases t <;> cases x <;> simp only [jeqvList] at hj <;> first
      | exact hj
      | exact h1 rfl rfl
      | exact h2 _ _ _ _ rfl rfl
  · intro _
    exact ⟨rfl, rfl⟩
  · intro k v ps q qs ih1 ih2 h
    obtain ⟨k', v'⟩ := q
    simp only [jeqvPairs] at h
    obtain ⟨hk, hv, hrest⟩ := h
    obtain ⟨hc, hkeys⟩ := ih2 hrest
    constructor
    · simp only [canonPairs, hc]
      simp only [canonPairs_eq_map]
      rw [hk, ih1 hv]
    · simp only [List.map_cons]
      rw [hk, hkeys]
  · intro t x h1 h2 hj
    exfalso
    cases t with
    | nil =>
      cases x with
      | nil => exact h1 rfl rfl
      | cons b x' => simp only [jeqvPairs] at hj
    | cons a t' =>
      obtain ⟨k, v⟩ := a
      cases x with
      | nil => simp only [jeqvPairs] at hj
      | cons b x' => exact h2 _ _ _ _ _ rfl rfl

theorem jeqv_compute_input_hash {a b : Json} (h : jeqv a b) :
    compute_input_hash a = compute_input_hash b := by
  unfold compute_input_hash dumpsCanonical
  rw [jeqv_canon a b h]

/-! ## Properties of the retry loop -/

theorem execGo_state (env : Env) (reg : RegisteredTool) (args : Json)
    (secrets : List (String × String)) (ctx : CallContext) (corr : String) :
    ∀ fuel attempts s, ∃ n vc,
      ((RigRuntime.execGo env reg args secrets ctx corr fuel attempts s).2 =
        { s with implCalls := s.implCalls + n, validateCalls := s.validateCalls ++ vc } ∧
      1 ≤ n ∧ ∀ p ∈ vc, p.2 = reg.tool.output_schema) := by
  intro fuel
  induction fuel with
  | zero =>
    intro attempts s
    rw [RigRuntime.execGo]
    cases himpl : reg.impl args secrets ctx (attempts + 1) with
    | ok out =>
      refine ⟨1, [(out, reg.tool.output_schema)], ?_, le_refl 1, by simp⟩
      by_cases hv : env.validate out reg.tool.output_schema <;> simp [himpl, hv]
    | raiseTyped rte => exact ⟨1, [], by simp [himpl], le_refl 1, by simp⟩
    | raiseGeneric msg =>
      refine ⟨1, [], ?_, le_refl 1, by simp⟩
      by_cases hr : attempts + 1 ≤ s.policy.retries.toNat <;> simp [himpl, hr]
  | succ f ih =>
    intro attempts s
    rw [RigRuntime.execGo]
    cases himpl : reg.impl args secrets ctx (attempts + 1) with
    | ok out =>
      refine ⟨1, [(out, reg.tool.output_schema)], ?_, le_refl 1, by simp⟩
      by_cases hv : env.validate out reg.tool.output_schema <;> simp [himpl, hv]
    | raiseTyped rte => exact ⟨1, [], by simp [himpl], le_refl 1, by simp⟩
    | raiseGeneric msg =>
      by_cases hr : attempts + 1 ≤ s.policy.retries.toNat
      · obtain ⟨n, vc, he, hn, hvc⟩ := ih (attempts + 1) { s with implCalls := s.implCalls + 1 }
        refine ⟨1 + n, vc, ?_, by omega, hvc⟩
        simp only [himpl, hr, if_pos]
        rw [he]
        simp [Nat.add_assoc]
      · refine ⟨1, [], ?_, le_refl 1, by simp⟩
        simp [himpl, hr]

theorem execGo_preserves (env : Env) (reg : RegisteredTool) (args : Json)
    (secrets : List (String × String)) (ctx : CallContext) (corr : String)
    (fuel attempts : Nat) (s : RuntimeState) :
    ((RigRuntime.execGo env reg args secrets ctx corr fuel attempts s).2.auditEvents = s.auditEvents ∧
     (RigRuntime.execGo env reg args secrets ctx corr fuel attempts s).2.approvals = s.approvals ∧
     (RigRuntime.execGo env reg args secrets ctx corr fuel attempts s).2.tools = s.tools ∧
     (RigRuntime.execGo env reg args secrets ctx corr fuel attempts s).2.policy = s.policy ∧
     (RigRuntime.execGo env reg args secrets ctx corr fuel attempts s).2.tick = s.tick ∧
     (RigRuntime.execGo env reg args secrets ctx corr fuel attempts s).2.interface_hash = s.interface_hash ∧
     (RigRuntime.execGo env reg args secrets ctx corr fuel attempts s).2.pack_set_version = s.pack_set_version ∧
     s.implCalls + 1 ≤ (RigRuntime.execGo env reg args secrets ctx corr fuel attempts s).2.implCalls) := by
  obtain ⟨n, vc, he, hn⟩ := execGo_state env reg args secrets ctx corr fuel attempts s
  rw [he]
  refine ⟨rfl, rfl, rfl, rfl, rfl, rfl, rfl, by simp; omega⟩

theorem execGo_result_fields (env : Env) (reg : RegisteredTool) (args : Json)
    (secrets : List (String × String)) (ctx : CallContext) (corr : String) :
    ∀ fuel attempts s,
      ((RigRuntime.execGo env reg args secrets ctx corr fuel attempts s).1.pack = some reg.pack ∧
       (RigRuntime.execGo env reg args secrets ctx corr fuel attempts s).1.pack_version = some reg.pack_version ∧
       (RigRuntime.execGo env reg args secrets ctx corr fuel attempts s).1.interface_hash = some s.interface_hash ∧
       (RigRuntime.execGo env reg args secrets ctx corr fuel attempts s).1.pack_set_version = some s.pack_set_version ∧
       (RigRuntime.execGo env reg args secrets ctx corr fuel attempts s).1.correlation_id = some corr) := by
  intro fuel
  induction fuel with
  | zero =>
    intro attempts s
    rw [RigRuntime.execGo]
    cases himpl : reg.impl args secrets ctx (attempts + 1) with
    | ok out =>
      by_cases hv : env.validate out reg.tool.output_schema <;> simp [himpl, hv]
    | raiseTyped rte => simp [himpl]
    | raiseGeneric msg =>
      by_cases hr : attempts + 1 ≤ s.policy.retries.toNat <;> simp [himpl, hr]
  | succ f ih =>
    intro attempts s
    rw [RigRuntime.execGo]
    cases himpl : reg.impl args secrets ctx (attempts + 1) with
    | ok out =>
      by_cases hv : env.validate out reg.tool.output_schema <;> simp [himpl, hv]
    | raiseTyped rte => simp [himpl]
    | raiseGeneric msg =>
      by_cases hr : attempts + 1 ≤ s.policy.retries.toNat
      · simpa [himpl, hr] using ih (attempts + 1) { s with implCalls := s.implCalls + 1 }
      · simp [himpl, hr]

theorem execGo_typed (env : Env) (reg : RegisteredTool) (args : Json)
    (secrets : List (String × String)) (ctx : CallContext) (corr : String)
    (k : Nat) (err : ToolError) (m : Nat → String) (B : Nat)
    (hgen : ∀ i, 1 ≤ i → i < k → reg.impl args secrets ctx i = .raiseGeneric (m i))
    (htyped : reg.impl args secrets ctx k = .raiseTyped err)
    (hkB : k ≤ B + 1) :
    ∀ d fuel attempts s, d ≤ fuel → attempts + d + 1 = k → s.policy.retries.toNat = B →
      ((RigRuntime.execGo env reg args secrets ctx corr fuel attempts s).1.error =
        some (if err.correlation_id.getD "" = "" then { err with correlation_id := some corr } else err) ∧
       (RigRuntime.execGo env reg args secrets ctx corr fuel attempts s).2.implCalls =
        s.implCalls + d + 1) := by
  intro d
  induction d with
  | zero =>
    intro fuel attempts s _ hk hB
    rw [RigRuntime.execGo]
    have himpl : reg.impl args secrets ctx (attempts + 1) = .raiseTyped err := by
      rw [show attempts + 1 = k by omega] at *
      exact htyped
    simp [himpl]
  | succ d ih =>
    intro fuel attempts s hdf hk hB
    cases fuel with
    | zero => omega
    | succ f =>
      rw [RigRuntime.execGo]
      have himpl : reg.impl args secrets ctx (attempts + 1) = .raiseGeneric (m (attempts + 1)) :=
        hgen (attempts + 1) (by omega) (by omega)
      have hcr : attempts + 1 ≤ s.policy.retries.toNat := by omega
      simp only [himpl, hcr, if_pos]
      have := ih f (attempts + 1) { s with implCalls := s.implCalls + 1 } (by omega) (by omega) hB
      simp only at this
      refine ⟨this.1, ?_⟩
      rw [this.2]
      simp
      omega

theorem execGo_allGeneric (env : Env) (reg : RegisteredTool) (args : Json)
    (secrets : List (String × String)) (ctx : CallContext) (corr : String)
    (m : Nat → String) (B : Nat)
    (hgen : ∀ i, 1 ≤ i → reg.impl args secrets ctx i = .raiseGeneric (m i)) :
    ∀ d fuel attempts s, d ≤ fuel → attempts + d = B → s.policy.retries.toNat = B →
      ((RigRuntime.execGo env reg args secrets ctx corr fuel attempts s).1.error =
        some { type := .upstream_error, message := m (attempts + d + 1), retryable := false
               correlation_id := some corr } ∧
       (RigRuntime.execGo env reg args secrets ctx corr fuel attempts s).2.implCalls =
        s.implCalls + d + 1) := by
  intro d
  induction d with
  | zero =>
    intro fuel attempts s _ hk hB
    rw [RigRuntime.execGo]
    have himpl : reg.impl args secrets ctx (attempts + 1) = .raiseGeneric (m (attempts + 1)) :=
      hgen (attempts + 1) (by omega)
    have hcr : ¬ (attempts + 1 ≤ s.policy.retries.toNat) := by omega
    simp [himpl, hcr]
  | succ d ih =>
    intro fuel attempts s hdf hk hB
    cases fuel with
    | zero => omega
    | succ f =>
      rw [RigRuntime.execGo]
      have himpl : reg.impl args secrets ctx (attempts + 1) = .raiseGeneric (m (attempts + 1)) :=
        hgen (attempts + 1) (by omega)
      have hcr : attempts + 1 ≤ s.policy.retries.toNat := by omega
      simp only [himpl, hcr, if_pos]
      have := ih f (attempts + 1) { s with implCalls := s.implCalls + 1 } (by omega) (by omega) hB
      simp only at this
      refine ⟨?_, ?_⟩
      · have harg : attempts + (d + 1) + 1 = attempts + 1 + d + 1 := by omega
        rw [harg]
        exact this.1
      · rw [this.2]
        simp
        omega

theorem execGo_badOutput (env : Env) (reg : RegisteredTool) (args : Json)
    (secrets : List (String × String)) (ctx : CallContext) (corr : String)
    (out : Json)
    (himpl : reg.impl args secrets ctx 1 = .ok out)
    (hval : env.validate out reg.tool.output_schema = false) :
    ∀ fuel s,
      ((RigRuntime.execGo env reg args secrets ctx corr fuel 0 s).1.error =
        some { type := .internal_error
               message := "output schema mismatch: " ++ env.validateMsg out reg.tool.output_schema
               correlation_id := some corr } ∧
       (RigRuntime.execGo env reg args secrets ctx corr fuel 0 s).2.implCalls =
        s.implCalls + 1) := by
  intro fuel s
  rw [RigRuntime.execGo]
  simp [himpl, hval]

/-! ## Properties of `call` and `approve_and_call` -/

/-- The correlation id that `call` computes from the entry state:
`ctx.get("request_id") or str(uuid.uuid4())`. -/
def corrOf (env : Env) (s : RuntimeState) (ctx : CallContext) : String :=
  match ctx.request_id with
  | some r => if r = "" then env.uuids s.uuidCtr else r
  | none => env.uuids s.uuidCtr

theorem auditWrite_some (env : Env) (s : RuntimeState) (tool_name : String) (args : Json)
    (ctx : CallContext) (result : ToolResult) (dur : Nat) (marker : Option String)
    (l : List AuditEvent) (hlog : s.auditEvents = some l) :
    RigRuntime.auditWrite env s tool_name args ctx result dur marker =
      { s with
        auditEvents := some (l ++ [auditEventOf env s tool_name args ctx result dur marker])
        tick := s.tick + 1 } := by
  unfold RigRuntime.auditWrite
  rw [hlog]

theorem auditEventOf_runId (env : Env) (s : RuntimeState) (tool_name : String) (args : Json)
    (ctx : CallContext) (result : ToolResult) (dur : Nat) (marker : Option String) :
    (auditEventOf env s tool_name args ctx result dur marker).run_id =
      (match result.correlation_id with
       | some c => if c = "" then "unknown" else c
       | none => "unknown") := rfl

theorem execAndAudit_spec (env : Env) (reg : RegisteredTool) (tool_name : String)
    (args : Json) (ctx : CallContext) (corr : String) (t0 : Nat) (s : RuntimeState)
    (l : List AuditEvent) (hlog : s.auditEvents = some l) :
    ∃ e : AuditEvent,
      ((RigRuntime.execAndAudit env reg tool_name args ctx corr t0 s).2.auditEvents = some (l ++ [e]) ∧
       (RigRuntime.execAndAudit env reg tool_name args ctx corr t0 s).1.correlation_id = some corr ∧
       e.run_id = (if corr = "" then "unknown" else corr) ∧
       (RigRuntime.execAndAudit env reg tool_name args ctx corr t0 s).1.pack = some reg.pack ∧
       (RigRuntime.execAndAudit env reg tool_name args ctx corr t0 s).1.pack_version = some reg.pack_version ∧
       (RigRuntime.execAndAudit env reg tool_name args ctx corr t0 s).1.interface_hash = some s.interface_hash ∧
       (RigRuntime.execAndAudit env reg tool_name args ctx corr t0 s).1.pack_set_version = some s.pack_set_version) := by
  unfold RigRuntime.execAndAudit RigRuntime.execute
  dsimp only
  rcases hex : RigRuntime.execGo env reg args
      (SecretsStore.resolve env reg.tool.auth_slots ctx.tenant_id) ctx corr
      (s.policy.retries.toNat + 1) 0 s with ⟨res, s4⟩
  have hpres := execGo_preserves env reg args
      (SecretsStore.resolve env reg.tool.auth_slots ctx.tenant_id) ctx corr
      (s.policy.retries.toNat + 1) 0 s
  have hfields := execGo_result_fields env reg args
      (SecretsStore.resolve env reg.tool.auth_slots ctx.tenant_id) ctx corr
      (s.policy.retries.toNat + 1) 0 s
  rw [hex] at hpres hfields
  simp only at hpres hfields
  have hlog4 : s4.auditEvents = some l := by rw [hpres.1, hlog]
  simp only [observeTime, RigRuntime.audited]
  rw [auditWrite_some env _ tool_name args ctx res _ _ l (by simp [hlog4])]
  exact ⟨_, rfl, hfields.2.2.2.2, by rw [auditEventOf_runId, hfields.2.2.2.2],
    hfields.1, hfields.2.1, hfields.2.2.1, hfields.2.2.2.1⟩

theorem correlationOf_facts (env : Env) (s' : RuntimeState) (ctx : CallContext) :
    (correlationOf env s' ctx).1 = corrOf env s' ctx ∧
    ((correlationOf env s' ctx).2.tools = s'.tools ∧
     (correlationOf env s' ctx).2.policy = s'.policy ∧
     (correlationOf env s' ctx).2.auditEvents = s'.auditEvents ∧
     (correlationOf env s' ctx).2.interface_hash = s'.interface_hash ∧
     (correlationOf env s' ctx).2.pack_set_version = s'.pack_set_version ∧
     (correlationOf env s' ctx).2.tick = s'.tick ∧
     (correlationOf env s' ctx).2.validateCalls = s'.validateCalls ∧
     (correlationOf env s' ctx).2.approvals = s'.approvals ∧
     (correlationOf env s' ctx).2.implCalls = s'.implCalls) := by
  cases hreq : ctx.request_id with
  | none => simp [correlationOf, corrOf, freshUuid, hreq]
  | some r =>
    by_cases hr : r = "" <;>
      simp [correlationOf, corrOf, freshUuid, hreq, hr]

theorem call_spec (env : Env) (s : RuntimeState) (tool_name : String) (args : Json)
    (ctx : CallContext) (l : List AuditEvent) (hlog : s.auditEvents = some l) :
    ∃ e : AuditEvent,
      ((RigRuntime.call env s tool_name args ctx).2.auditEvents = some (l ++ [e]) ∧
       (RigRuntime.call env s tool_name args ctx).1.correlation_id = some (corrOf env s ctx) ∧
       e.run_id = (if corrOf env s ctx = "" then "unknown" else corrOf env s ctx) ∧
       (∀ reg, alistFind s.tools tool_name = some reg →
         ((RigRuntime.call env s tool_name args ctx).1.pack = some reg.pack ∧
          (RigRuntime.call env s tool_name args ctx).1.pack_version = some reg.pack_version ∧
          (RigRuntime.call env s tool_name args ctx).1.interface_hash = some s.interface_hash ∧
          (RigRuntime.call env s tool_name args ctx).1.pack_set_version = some s.pack_set_version))) := by
  unfold RigRuntime.call
  simp only [observeTime]
  obtain ⟨hcfst, hfac⟩ := correlationOf_facts env { s with tick := s.tick + 1 } ctx
  rcases hco : correlationOf env { s with tick := s.tick + 1 } ctx with ⟨corr, s1⟩
  rw [hco] at hcfst hfac
  simp only at hcfst hfac
  have hcorr : corr = corrOf env s ctx := hcfst
  have htools : s1.tools = s.tools := hfac.1
  have hpol : s1.policy = s.policy := hfac.2.1
  have hs1log : s1.auditEvents = some l := by rw [hfac.2.2.1]; exact hlog
  have hih : s1.interface_hash = s.interface_hash := hfac.2.2.2.1
  have hpsv : s1.pack_set_version = s.pack_set_version := hfac.2.2.2.2.1
  simp only [htools, hpol]
  cases hfind : alistFind s.tools tool_name with
  | none =>
    simp only [hfind, RigRuntime.audited, observeTime]
    rw [auditWrite_some env _ tool_name args ctx _ _ _ l (by simp [hs1log])]
    refine ⟨_, rfl, by simp [hcorr], by simp [auditEventOf_runId, hcorr], ?_⟩
    intro reg hreg
    exact Option.noConfusion hreg
  | some reg =>
    by_cases hallow : s.policy.is_tool_allowed tool_name
    case neg =>
      simp only [hfind, hallow, Bool.not_false, if_true, RigRuntime.audited, observeTime,
        Bool.false_eq_true, ite_false]
      rw [auditWrite_some env _ tool_name args ctx _ _ _ l (by simp [hs1log])]
      refine ⟨_, rfl, by simp [hcorr], by simp [auditEventOf_runId, hcorr], ?_⟩
      intro reg2 hreg
      have hr2 := Option.some.inj hreg
      subst hr2
      exact ⟨rfl, rfl, by simp [hih], by simp [hpsv]⟩
    case pos =>
      by_cases hval : env.validate args reg.tool.input_schema
      case neg =>
        simp only [hfind, hallow, hval, Bool.not_true, Bool.not_false, if_true, if_false,
          Bool.false_eq_true, Bool.true_eq_false, ite_true, ite_false, RigRuntime.audited,
          observeTime]
        rw [auditWrite_some env _ tool_name args ctx _ _ _ l (by simp [hs1log])]
        refine ⟨_, rfl, by simp [hcorr], by simp [auditEventOf_runId, hcorr], ?_⟩
        intro reg2 hreg
        have hr2 := Option.some.inj hreg
        subst hr2
        exact ⟨rfl, rfl, by simp [hih], by simp [hpsv]⟩
      case pos =>
        by_cases happ : s.policy.needs_approval reg.tool.risk_class
        case pos =>
          simp only [hfind, hallow, hval, happ, Bool.not_true, Bool.not_false, if_true,
            if_false, Bool.false_eq_true, Bool.true_eq_false, ite_true, ite_false,
            RigRuntime.audited, observeTime, ApprovalStore.create, freshUuid]
          rw [auditWrite_some env _ tool_name args ctx _ _ _ l (by simp [hs1log])]
          refine ⟨_, rfl, by simp [hcorr], by simp [auditEventOf_runId, hcorr], ?_⟩
          intro reg2 hreg
          have hr2 := Option.some.inj hreg
          subst hr2
          exact ⟨rfl, rfl, by simp [hih], by simp [hpsv]⟩
        case neg =>
          simp only [hfind, hallow, hval, happ, Bool.not_true, Bool.not_false, if_true,
            if_false, Bool.false_eq_true, Bool.true_eq_false, ite_true, ite_false]
          obtain ⟨e, h1, h2, h3, h4, h5, h6, h7⟩ :=
            execAndAudit_spec env reg tool_name args ctx corr (env.times s.tick)
              { s1 with validateCalls := s1.validateCalls ++ [(args, reg.tool.input_schema)] }
              l (by simp [hs1log])
          refine ⟨e, by simpa [htools, hpol] using h1, by simpa [htools, hpol, hcorr] using h2,
            by simpa [hcorr] using h3, ?_⟩
          intro reg2 hreg
          have hr2 := Option.some.inj hreg
          subst hr2
          exact ⟨by simpa [htools, hpol] using h4, by simpa [htools, hpol] using h5,
            by simpa [htools, hpol, hih] using h6, by simpa [htools, hpol, hpsv] using h7⟩

theorem auditWrite_implCalls (env : Env) (s : RuntimeState) (tool_name : String)
    (args : Json) (ctx : CallContext) (result : ToolResult) (dur : Nat)
    (marker : Option String) :
    (RigRuntime.auditWrite env s tool_name args ctx result dur marker).implCalls =
      s.implCalls := by
  unfold RigRuntime.auditWrite
  cases h : s.auditEvents <;> simp

theorem auditWrite_validateCalls (env : Env) (s : RuntimeState) (tool_name : String)
    (args : Json) (ctx : CallContext) (result : ToolResult) (dur : Nat)
    (marker : Option String) :
    (RigRuntime.auditWrite env s tool_name args ctx result dur marker).validateCalls =
      s.validateCalls := by
  unfold RigRuntime.auditWrite
  cases h : s.auditEvents <;> simp

theorem execAndAudit_ghost (env : Env) (reg : RegisteredTool) (tool_name : String)
    (args : Json) (ctx : CallContext) (corr : String) (t0 : Nat) (s : RuntimeState) :
    (s.implCalls + 1 ≤ (RigRuntime.execAndAudit env reg tool_name args ctx corr t0 s).2.implCalls ∧
     ∀ p ∈ (RigRuntime.execAndAudit env reg tool_name args ctx corr t0 s).2.validateCalls,
       p ∈ s.validateCalls ∨ p.2 = reg.tool.output_schema) := by
  unfold RigRuntime.execAndAudit RigRuntime.execute
  dsimp only
  rcases hex : RigRuntime.execGo env reg args
      (SecretsStore.resolve env reg.tool.auth_slots ctx.tenant_id) ctx corr
      (s.policy.retries.toNat + 1) 0 s with ⟨res, s4⟩
  obtain ⟨n, vc, he, hn, hvc⟩ := execGo_state env reg args
      (SecretsStore.resolve env reg.tool.auth_slots ctx.tenant_id) ctx corr
      (s.policy.retries.toNat + 1) 0 s
  rw [hex] at he
  simp only at he
  simp only [observeTime, RigRuntime.audited, auditWrite_implCalls, auditWrite_validateCalls]
  constructor
  · rw [he]
    simp
    omega
  · intro p hp
    rw [he] at hp
    simp at hp
    rcases hp with h | h
    · exact Or.inl h
    · exact Or.inr (hvc p h)

theorem execGo_policy (env : Env) (reg : RegisteredTool) (args : Json)
    (secrets : List (String × String)) (ctx : CallContext) (corr : String) :
    ∀ fuel attempts s (p : Policy), p.retries = s.policy.retries →
      (RigRuntime.execGo env reg args secrets ctx corr fuel attempts { s with policy := p }).1 =
        (RigRuntime.execGo env reg args secrets ctx corr fuel attempts s).1 := by
  intro fuel
  induction fuel with
  | zero =>
    intro attempts s p hret
    rw [RigRuntime.execGo, RigRuntime.execGo]
    cases himpl : reg.impl args secrets ctx (attempts + 1) with
    | ok out =>
      by_cases hv : env.validate out reg.tool.output_schema <;> simp [himpl, hv]
    | raiseTyped rte => simp [himpl]
    | raiseGeneric msg =>
      by_cases hr : attempts + 1 ≤ s.policy.retries.toNat <;>
        simp [himpl, hr, hret]
  | succ f ih =>
    intro attempts s p hret
    rw [RigRuntime.execGo, RigRuntime.execGo]
    cases himpl : reg.impl args secrets ctx (attempts + 1) with
    | ok out =>
      by_cases hv : env.validate out reg.tool.output_schema <;> simp [himpl, hv]
    | raiseTyped rte => simp [himpl]
    | raiseGeneric msg =>
      by_cases hr : attempts + 1 ≤ s.policy.retries.toNat
      · simp only [himpl, hret, hr, if_pos]
        exact ih (attempts + 1) { s with implCalls := s.implCalls + 1 } p hret
      · simp [himpl, hr, hret]

theorem execAndAudit_policy (env : Env) (reg : RegisteredTool) (tool_name : String)
    (args : Json) (ctx : CallContext) (corr : String) (t0 : Nat) (s : RuntimeState)
    (p : Policy) (hret : p.retries = s.policy.retries) :
    (RigRuntime.execAndAudit env reg tool_name args ctx corr t0 { s with policy := p }).1 =
      (RigRuntime.execAndAudit env reg tool_name args ctx corr t0 s).1 := by
  unfold RigRuntime.execAndAudit RigRuntime.execute
  dsimp only
  have hpol := execGo_policy env reg args
      (SecretsStore.resolve env reg.tool.auth_slots ctx.tenant_id) ctx corr
      (s.policy.retries.toNat + 1) 0 s p hret
  have hfuel : (p.retries.toNat + 1) = (s.policy.retries.toNat + 1) := by rw [hret]
  rw [hfuel]
  rcases h1 : RigRuntime.execGo env reg args
      (SecretsStore.resolve env reg.tool.auth_slots ctx.tenant_id) ctx corr
      (s.policy.retries.toNat + 1) 0 { s with policy := p } with ⟨res1, t1s⟩
  rcases h2 : RigRuntime.execGo env reg args
      (SecretsStore.resolve env reg.tool.auth_slots ctx.tenant_id) ctx corr
      (s.policy.retries.toNat + 1) 0 s with ⟨res2, t2s⟩
  rw [h1, h2] at hpol
  simp only at hpol
  simp [RigRuntime.audited, observeTime, hpol]

theorem approve_notFound_token (env : Env) (s : RuntimeState) (token : String)
    (hnone : alistFind s.approvals token = none) :
    ((RigRuntime.approve_and_call env s token).1 =
      { ok := false, error := some { type := .not_found, message := "approval token not found" } } ∧
     (RigRuntime.approve_and_call env s token).2.auditEvents = s.auditEvents ∧
     (RigRuntime.approve_and_call env s token).2.implCalls = s.implCalls ∧
     (RigRuntime.approve_and_call env s token).2.approvals =
       s.approvals.filter (fun p => !(p.1 == token))) := by
  unfold RigRuntime.approve_and_call ApprovalStore.pop
  simp [observeTime, hnone]

theorem approve_notFound_tool (env : Env) (s : RuntimeState) (token : String)
    (item : Pending)
    (hfound : alistFind s.approvals token = some item)
    (hreg : alistFind s.tools item.tool_name = none) :
    ((RigRuntime.approve_and_call env s token).1 =
      { ok := false, error := some { type := .not_found, message := "tool not found" } } ∧
     (RigRuntime.approve_and_call env s token).2.auditEvents = s.auditEvents ∧
     (RigRuntime.approve_and_call env s token).2.implCalls = s.implCalls) := by
  unfold RigRuntime.approve_and_call ApprovalStore.pop
  simp [observeTime, hfound, hreg]

theorem approve_found_spec (env : Env) (s : RuntimeState) (token : String)
    (item : Pending) (reg : RegisteredTool) (l : List AuditEvent)
    (hfound : alistFind s.approvals token = some item)
    (hreg : alistFind s.tools item.tool_name = some reg)
    (hlog : s.auditEvents = some l) :
    ∃ e : AuditEvent,
      ((RigRuntime.approve_and_call env s token).2.auditEvents = some (l ++ [e]) ∧
       (RigRuntime.approve_and_call env s token).1.correlation_id = some (corrOf env s item.ctx) ∧
       e.run_id = (if corrOf env s item.ctx = "" then "unknown" else corrOf env s item.ctx) ∧
       (RigRuntime.approve_and_call env s token).1.pack = some reg.pack ∧
       (RigRuntime.approve_and_call env s token).1.pack_version = some reg.pack_version ∧
       (RigRuntime.approve_and_call env s token).1.interface_hash = some s.interface_hash ∧
       (RigRuntime.approve_and_call env s token).1.pack_set_version = some s.pack_set_version ∧
       s.implCalls + 1 ≤ (RigRuntime.approve_and_call env s token).2.implCalls ∧
       (∀ p ∈ (RigRuntime.approve_and_call env s token).2.validateCalls,
         p ∈ s.validateCalls ∨ p.2 = reg.tool.output_schema)) := by
  unfold RigRuntime.approve_and_call ApprovalStore.pop
  simp only [observeTime, hfound, hreg]
  obtain ⟨hcfst, hfac⟩ := correlationOf_facts env
    { s with tick := s.tick + 1
             approvals := s.approvals.filter (fun p => !(p.1 == token)) } item.ctx
  rcases hco : correlationOf env
    { s with tick := s.tick + 1
             approvals := s.approvals.filter (fun p => !(p.1 == token)) } item.ctx
    with ⟨corr, s1⟩
  rw [hco] at hcfst hfac
  try rw [hco]
  simp only at hcfst hfac ⊢
  have hcorr : corr = corrOf env s item.ctx := hcfst
  have hs1log : s1.auditEvents = some l := by rw [hfac.2.2.1]; exact hlog
  have hih : s1.interface_hash = s.interface_hash := hfac.2.2.2.1
  have hpsv : s1.pack_set_version = s.pack_set_version := hfac.2.2.2.2.1
  have himplc : s1.implCalls = s.implCalls := hfac.2.2.2.2.2.2.2.2
  have hvcal : s1.validateCalls = s.validateCalls := hfac.2.2.2.2.2.2.1
  obtain ⟨e, h1, h2, h3, h4, h5, h6, h7⟩ :=
    execAndAudit_spec env reg item.tool_name item.args item.ctx corr (env.times s.tick)
      s1 l hs1log
  obtain ⟨hg1, hg2⟩ :=
    execAndAudit_ghost env reg item.tool_name item.args item.ctx corr (env.times s.tick) s1
  refine ⟨e, h1, by rw [← hcorr]; exact h2, by rw [← hcorr]; exact h3, h4, h5,
    by rw [← hih]; exact h6, by rw [← hpsv]; exact h7, by rw [← himplc]; omega, ?_⟩
  intro p hp
  rcases hg2 p hp with h | h
  · exact Or.inl (by rw [← hvcal]; exact h)
  · exact Or.inr h

theorem correlationOf_policy (env : Env) (X : RuntimeState) (ctx : CallContext) (p : Policy) :
    ((correlationOf env { X with policy := p } ctx).1 = (correlationOf env X ctx).1 ∧
     (correlationOf env { X with policy := p } ctx).2 =
       { (correlationOf env X ctx).2 with policy := p }) := by
  cases hreq : ctx.request_id with
  | none => simp [correlationOf, freshUuid, hreq]
  | some r => by_cases hr : r = "" <;> simp [correlationOf, freshUuid, hreq, hr]

theorem execAndAudit_after_corr (env : Env) (reg : RegisteredTool) (tool_name : String)
    (args : Json) (ctxI : CallContext) (p : Policy) (t0 : Nat) (X : RuntimeState)
    (hret : p.retries = X.policy.retries) :
    (RigRuntime.execAndAudit env reg tool_name args ctxI
        (correlationOf env { X with policy := p } ctxI).1 t0
        (correlationOf env { X with policy := p } ctxI).2).1 =
      (RigRuntime.execAndAudit env reg tool_name args ctxI
        (correlationOf env X ctxI).1 t0 (correlationOf env X ctxI).2).1 := by
  obtain ⟨h1, h2⟩ := correlationOf_policy env X ctxI p
  rw [h1, h2]
  refine execAndAudit_policy env reg tool_name args ctxI _ t0 (correlationOf env X ctxI).2 p ?_
  rw [(correlationOf_facts env X ctxI).2.2.1]
  exact hret

theorem approve_policy (env : Env) (s : RuntimeState) (token : String) (p : Policy)
    (hret : p.retries = s.policy.retries) :
    (RigRuntime.approve_and_call env { s with policy := p } token).1 =
      (RigRuntime.approve_and_call env s token).1 := by
  unfold RigRuntime.approve_and_call ApprovalStore.pop
  simp only [observeTime]
  cases hfound : alistFind s.approvals token with
  | none => simp [hfound]
  | some item =>
    simp only [hfound]
    cases hreg : alistFind s.tools item.tool_name with
    | none => simp [hfound, hreg]
    | some reg =>
      simp only [hfound, hreg]
      exact execAndAudit_after_corr env reg item.tool_name item.args item.ctx p
        (env.times s.tick)
        { s with tick := s.tick + 1
                 approvals := s.approvals.filter (fun q => !(q.1 == token)) } hret

/-! ## Registry lemmas -/

theorem register_tools_fresh (pre : List ToolDef) :
    ∀ (r : ToolRegistry), (∀ t ∈ pre, alistFind r.tools t.name = none) →
      (pre.map ToolDef.name).Nodup →
      ∀ rest, ToolRegistry.register_tools r (pre ++ rest) =
        ToolRegistry.register_tools
          { r with tools := r.tools ++ pre.map (fun u => (u.name, u)) } rest := by
  induction pre with
  | nil =>
    intro r _ _ rest
    simp
  | cons t pre ih =>
    intro r hfresh hnd rest
    simp only [List.map_cons, List.nodup_cons] at hnd
    have hft : alistFind r.tools t.name = none := hfresh t (List.mem_cons_self t pre)
    calc ToolRegistry.register_tools r ((t :: pre) ++ rest)
        = ToolRegistry.register_tools { r with tools := r.tools ++ [(t.name, t)] } (pre ++ rest) := by
          rw [List.cons_append, ToolRegistry.register_tools]
          simp [hft]
      _ = ToolRegistry.register_tools
            { r with tools := (r.tools ++ [(t.name, t)]) ++ pre.map (fun u => (u.name, u)) }
            rest := by
          refine ih _ ?_ hnd.2 rest
          intro u hu
          rw [alistFind_append]
          rw [hfresh u (List.mem_cons_of_mem _ hu)]
          have hne : ¬ (t.name == u.name) = true := by
            simp only [beq_iff_eq]
            intro he
            exact hnd.1 (he ▸ List.mem_map_of_mem ToolDef.name hu)
          simp [alistFind_cons, hne, alistFind]
      _ = ToolRegistry.register_tools
            { r with tools := r.tools ++ ((t.name, t) :: pre.map (fun u => (u.name, u))) }
            rest := by
          rw [List.append_assoc]
          rfl

theorem register_tools_dup_head (r : ToolRegistry) (d : ToolDef) (rest : List ToolDef)
    (hdup : (alistFind r.tools d.name).isSome) :
    ToolRegistry.register_tools r (d :: rest) =
      (r, some ("duplicate tool name: " ++ d.name)) := by
  rw [ToolRegistry.register_tools]
  simp [hdup]

theorem alistFind_map_self (pre : List ToolDef) (t : ToolDef) (hmem : t ∈ pre)
    (hnd : (pre.map ToolDef.name).Nodup) :
    alistFind (pre.map (fun u => (u.name, u))) t.name = some t := by
  induction pre with
  | nil => cases hmem
  | cons u pre ih =>
    simp only [List.map_cons, List.nodup_cons] at hnd
    rcases List.mem_cons.mp hmem with he | hm
    · subst he
      simp [alistFind_cons]
    · have hne : ¬ (u.name == t.name) = true := by
        simp only [beq_iff_eq]
        intro he
        exact hnd.1 (he ▸ List.mem_map_of_mem ToolDef.name hm)
      simp only [List.map_cons, alistFind_cons, hne, if_neg, Bool.false_eq_true, if_false]
      exact ih hm hnd.2

theorem mem_list_tools (r : ToolRegistry) (t : ToolDef) (hfind : alistFind r.tools t.name = some t)
    (hmem : t.name ∈ r.tools.map Prod.fst) : t ∈ r.list_tools := by
  unfold ToolRegistry.list_tools
  rw [List.mem_filterMap]
  refine ⟨t.name, ?_, hfind⟩
  have hperm : (sortStrings (r.tools.map Prod.fst)).Perm (r.tools.map Prod.fst) :=
    List.perm_insertionSort _ _
  exact hperm.mem_iff.mpr hmem

/-! ## Token consumption -/

theorem alistFind_filter_ne {β : Type} (l : List (String × β)) (k : String) :
    alistFind (l.filter (fun p => !(p.1 == k))) k = none := by
  induction l with
  | nil => rfl
  | cons p l ih =>
    by_cases h : p.1 == k
    · simp [List.filter_cons, h, ih]
    · simp [List.filter_cons, h, alistFind_cons, ih]

theorem auditWrite_approvals (env : Env) (s : RuntimeState) (tool_name : String)
    (args : Json) (ctx : CallContext) (result : ToolResult) (dur : Nat)
    (marker : Option String) :
    (RigRuntime.auditWrite env s tool_name args ctx result dur marker).approvals =
      s.approvals := by
  unfold RigRuntime.auditWrite
  cases h : s.auditEvents <;> simp

theorem execAndAudit_approvals (env : Env) (reg : RegisteredTool) (tool_name : String)
    (args : Json) (ctx : CallContext) (corr : String) (t0 : Nat) (s : RuntimeState) :
    (RigRuntime.execAndAudit env reg tool_name args ctx corr t0 s).2.approvals =
      s.approvals := by
  unfold RigRuntime.execAndAudit RigRuntime.execute
  dsimp only
  rcases hex : RigRuntime.execGo env reg args
      (SecretsStore.resolve env reg.tool.auth_slots ctx.tenant_id) ctx corr
      (s.policy.retries.toNat + 1) 0 s with ⟨res, s4⟩
  have hpres := execGo_preserves env reg args
      (SecretsStore.resolve env reg.tool.auth_slots ctx.tenant_id) ctx corr
      (s.policy.retries.toNat + 1) 0 s
  rw [hex] at hpres
  simp only at hpres
  simp only [observeTime, RigRuntime.audited, auditWrite_approvals]
  exact hpres.2.1

theorem approve_clears_token (env : Env) (s : RuntimeState) (token : String) :
    alistFind (RigRuntime.approve_and_call env s token).2.approvals token = none := by
  unfold RigRuntime.approve_and_call ApprovalStore.pop
  simp only [observeTime]
  cases hfound : alistFind s.approvals token with
  | none =>
    simp only [hfound]
    exact alistFind_filter_ne s.approvals token
  | some item =>
    simp only [hfound]
    cases hreg : alistFind s.tools item.tool_name with
    | none =>
      simp only [hreg]
      exact alistFind_filter_ne s.approvals token
    | some reg =>
      simp only [hreg]
      obtain ⟨hcfst, hfac⟩ := correlationOf_facts env
        { s with tick := s.tick + 1
                 approvals := s.approvals.filter (fun p => !(p.1 == token)) } item.ctx
      rcases hco : correlationOf env
        { s with tick := s.tick + 1
                 approvals := s.approvals.filter (fun p => !(p.1 == token)) } item.ctx
        with ⟨corr, s1⟩
      rw [hco] at hfac
      try rw [hco]
      simp only at hfac ⊢
      rw [execAndAudit_approvals]
      rw [hfac.2.2.2.2.2.2.2.1]
      exact alistFind_filter_ne s.approvals token

theorem approve_found_ghost (env : Env) (s : RuntimeState) (token : String)
    (item : Pending) (reg : RegisteredTool)
    (hfound : alistFind s.approvals token = some item)
    (hreg : alistFind s.tools item.tool_name = some reg) :
    (s.implCalls + 1 ≤ (RigRuntime.approve_and_call env s token).2.implCalls ∧
     ∀ p ∈ (RigRuntime.approve_and_call env s token).2.validateCalls,
       p ∈ s.validateCalls ∨ p.2 = reg.tool.output_schema) := by
  unfold RigRuntime.approve_and_call ApprovalStore.pop
  simp only [observeTime, hfound, hreg]
  obtain ⟨hcfst, hfac⟩ := correlationOf_facts env
    { s with tick := s.tick + 1
             approvals := s.approvals.filter (fun p => !(p.1 == token)) } item.ctx
  rcases hco : correlationOf env
    { s with tick := s.tick + 1
             approvals := s.approvals.filter (fun p => !(p.1 == token)) } item.ctx
    with ⟨corr, s1⟩
  rw [hco] at hfac
  try rw [hco]
  simp only at hfac ⊢
  have himplc : s1.implCalls = s.implCalls := hfac.2.2.2.2.2.2.2.2
  have hvcal : s1.validateCalls = s.validateCalls := hfac.2.2.2.2.2.2.1
  obtain ⟨hg1, hg2⟩ :=
    execAndAudit_ghost env reg item.tool_name item.args item.ctx corr (env.times s.tick) s1
  refine ⟨by rw [← himplc]; omega, ?_⟩
  intro p hp
  rcases hg2 p hp with h | h
  · exact Or.inl (by rw [← hvcal]; exact h)
  · exact Or.inr h

/-! ## Concrete fixtures for witnesses and counterexamples -/

/-- A deterministic oracle environment: the validator accepts everything, the
UUID stream yields "uuid-0", "uuid-1", … -/
def envT : Env :=
  { validate := fun _ _ => true
    validateMsg := fun _ _ => "validation failed"
    uuids := fun n => "uuid-" ++ toString n
    times := fun _ => 0
    dates := fun _ => "1970-01-01T00:00:00Z"
    getenv := fun _ => none }

theorem envT_uuid_ne (n : Nat) : envT.uuids n ≠ "" := by
  intro h
  have hlen := congrArg String.length h
  rw [show envT.uuids n = "uuid-" ++ toString n from rfl, String.length_append] at hlen
  have h5 : ("uuid-" : String).length = 5 := rfl
  have h0 : ("" : String).length = 0 := rfl
  omega

def echoSchema : Json := .obj [("type", .str "object")]

def echoToolDef : RtToolDef :=
  { name := "echo", input_schema := echoSchema, output_schema := echoSchema
    error_schema := echoSchema }

/-- An implementation that echoes its arguments back. -/
def echoImpl : ToolImpl := fun args _ _ _ => .ok args

def echoReg : RegisteredTool := { tool := echoToolDef, impl := echoImpl }

/-- A runtime with one registered tool and an empty, configured audit log. -/
def st0 : RuntimeState :=
  { policy := {}, approvals := [], auditEvents := some [], tools := [("echo", echoReg)] }

/-- An implementation that always raises a generic exception. -/
def genImpl : ToolImpl := fun _ _ _ _ => .raiseGeneric "boom"

def genReg : RegisteredTool := { tool := echoToolDef, impl := genImpl }

/-- A pending approval for the echo tool. -/
def pendEcho : Pending := { tool_name := "echo", args := .obj [], ctx := {} }

/-- A runtime with a pending approval and the empty allow-list. -/
def stApproved : RuntimeState :=
  { policy := { allowed_tools := some [] }, approvals := [("tok", pendEcho)]
    auditEvents := some [], tools := [("echo", echoReg)] }

/-! ## The claims -/

/-- C1, counterexample: `approve_and_call` on an unknown token returns a
`ToolResult` (a terminal `not_found` transition) yet appends no audit event,
refuting "exactly one audit event … regardless of which branch" for
`approve_and_call`'s `not_found` branch. -/
theorem C1_counterexample :
    ((RigRuntime.approve_and_call envT st0 "tok").1.ok = false ∧
     ¬ (auditLen (RigRuntime.approve_and_call envT st0 "tok").2 = auditLen st0 + 1) ∧
     auditLen (RigRuntime.approve_and_call envT st0 "tok").2 = auditLen st0) := by
  decide

/-- C1 (amended): every invocation of `Runtime.call` appends exactly one audit
event, on every branch, when an audit log is configured; `approve_and_call`
appends exactly one event when the token is found and its tool is registered,
and zero events on its two `not_found` branches. -/
theorem C1_exactly_one_audit (env : Env) (s : RuntimeState) (tool_name : String)
    (args : Json) (ctx : CallContext) (token : String) (l : List AuditEvent)
    (hlog : s.auditEvents = some l) :
    (auditLen (RigRuntime.call env s tool_name args ctx).2 = auditLen s + 1 ∧
     (∀ item reg, alistFind s.approvals token = some item →
       alistFind s.tools item.tool_name = some reg →
       auditLen (RigRuntime.approve_and_call env s token).2 = auditLen s + 1) ∧
     (alistFind s.approvals token = none →
       auditLen (RigRuntime.approve_and_call env s token).2 = auditLen s) ∧
     (∀ item, alistFind s.approvals token = some item →
       alistFind s.tools item.tool_name = none →
       auditLen (RigRuntime.approve_and_call env s token).2 = auditLen s)) := by
  refine ⟨?_, ?_, ?_, ?_⟩
  · obtain ⟨e, h1, _⟩ := call_spec env s tool_name args ctx l hlog
    simp [auditLen, h1, hlog]
  · intro item reg hf hr
    obtain ⟨e, h1, _⟩ := approve_found_spec env s token item reg l hf hr hlog
    simp [auditLen, h1, hlog]
  · intro hf
    have h := (approve_notFound_token env s token hf).2.1
    simp [auditLen, h]
  · intro item hf hr
    have h := (approve_notFound_tool env s token item hf hr).2.1
    simp [auditLen, h]

/-- C1 witness: a concrete `call` against the echo runtime appends exactly
one audit event. -/
theorem C1_witness :
    auditLen (RigRuntime.call envT st0 "echo" (Json.obj []) {}).2 = auditLen st0 + 1 :=
  (C1_exactly_one_audit envT st0 "echo" (Json.obj []) {} "tok" [] rfl).1

/-- C2, counterexample: the `ToolResult` of `approve_and_call` on an unknown
token carries no correlation id, refuting "correlation_id is present
(non-null) on every ToolResult returned by … approve_and_call". -/
theorem C2_counterexample :
    (RigRuntime.approve_and_call envT st0 "tok").1.correlation_id = none := by
  decide

/-- C2 (amended): `Runtime.call` always sets `correlation_id` to the
caller-provided non-empty `request_id`, otherwise to a freshly drawn UUID,
and the same value becomes the audit event's `run_id` (UUIDs being
non-empty); `approve_and_call` does the same from the stored context when the
token is found and its tool registered, while its `not_found` results carry
no correlation id. -/
theorem C2_correlation (env : Env) (s : RuntimeState) (tool_name : String) (args : Json)
    (ctx : CallContext) (token : String) (l : List AuditEvent)
    (hlog : s.auditEvents = some l) (huuid : ∀ n, env.uuids n ≠ "") :
    ((RigRuntime.call env s tool_name args ctx).1.correlation_id = some (corrOf env s ctx) ∧
     (∀ r, ctx.request_id = some r → r ≠ "" → corrOf env s ctx = r) ∧
     (ctx.request_id = none ∨ ctx.request_id = some "" →
       corrOf env s ctx = env.uuids s.uuidCtr) ∧
     (∃ e, (RigRuntime.call env s tool_name args ctx).2.auditEvents = some (l ++ [e]) ∧
       e.run_id = corrOf env s ctx) ∧
     (∀ item reg, alistFind s.approvals token = some item →
       alistFind s.tools item.tool_name = some reg →
       ((RigRuntime.approve_and_call env s token).1.correlation_id =
          some (corrOf env s item.ctx) ∧
        ∃ e2, (RigRuntime.approve_and_call env s token).2.auditEvents = some (l ++ [e2]) ∧
          e2.run_id = corrOf env s item.ctx)) ∧
     (alistFind s.approvals token = none →
       (RigRuntime.approve_and_call env s token).1.correlation_id = none)) := by
  have hne : ∀ c : CallContext, corrOf env s c ≠ "" := by
    intro c
    unfold corrOf
    cases hreq : c.request_id with
    | none => exact huuid s.uuidCtr
    | some r =>
      by_cases hr : r = ""
      · simp only [hr, if_pos]
        exact huuid s.uuidCtr
      · simp only [hr, if_neg, ite_false]
        exact hr
  obtain ⟨e, h1, h2, h3, _⟩ := call_spec env s tool_name args ctx l hlog
  refine ⟨h2, ?_, ?_, ⟨e, h1, by rw [h3, if_neg (hne ctx)]⟩, ?_, ?_⟩
  · intro r hreq hr
    unfold corrOf
    rw [hreq]
    simp [hr]
  · intro h
    unfold corrOf
    rcases h with h | h <;> rw [h] <;> simp
  · intro item reg hf hr
    obtain ⟨e2, ha2, hc2, hr2, _⟩ := approve_found_spec env s token item reg l hf hr hlog
    exact ⟨hc2, e2, ha2, by rw [hr2, if_neg (hne item.ctx)]⟩
  · intro hf
    have h := (approve_notFound_token env s token hf).1
    rw [h]

/-- C2 witness: a concrete call with `request_id = "r1"` yields
`correlation_id = some "r1"`. -/
theorem C2_witness :
    (RigRuntime.call envT st0 "echo" (Json.obj []) { request_id := some "r1" }).1.correlation_id =
      some "r1" := by
  have h := C2_correlation envT st0 "echo" (Json.obj []) { request_id := some "r1" } "tok" []
    rfl envT_uuid_ne
  rw [h.1, h.2.1 "r1" rfl (by decide)]

/-- C3: only generic (untyped) exceptions are retried.  A typed
`RigToolRaised` on any reachable attempt `k` is final — the implementation is
invoked exactly `k` times even when the typed error is marked retryable —
and the typed error (with the correlation id stamped in when absent) is the
result's error; an implementation that always raises generically is invoked
exactly `policy.retries + 1` times and yields `upstream_error`; an output
failing the output schema ends the call as `internal_error` after exactly one
invocation. -/
theorem C3_retry_policy (env : Env) (reg : RegisteredTool) (args : Json)
    (secrets : List (String × String)) (ctx : CallContext) (corr : String)
    (s : RuntimeState) (hret : 0 ≤ s.policy.retries) :
    ((∀ (k : Nat) (err : ToolError) (m : Nat → String),
        (∀ i, 1 ≤ i → i < k → reg.impl args secrets ctx i = .raiseGeneric (m i)) →
        reg.impl args secrets ctx k = .raiseTyped err →
        1 ≤ k → k ≤ s.policy.retries.toNat + 1 →
        ((RigRuntime.execute env reg args secrets ctx corr s).1.error =
           some (if err.correlation_id.getD "" = "" then
             { err with correlation_id := some corr } else err) ∧
         (RigRuntime.execute env reg args secrets ctx corr s).2.implCalls =
           s.implCalls + k)) ∧
     (∀ (m : Nat → String), (∀ i, 1 ≤ i → reg.impl args secrets ctx i = .raiseGeneric (m i)) →
        (((RigRuntime.execute env reg args secrets ctx corr s).2.implCalls : Int) =
           s.implCalls + s.policy.retries + 1 ∧
         ∃ e, (RigRuntime.execute env reg args secrets ctx corr s).1.error = some e ∧
           e.type = .upstream_error)) ∧
     (∀ out, reg.impl args secrets ctx 1 = .ok out →
        env.validate out reg.tool.output_schema = false →
        ((RigRuntime.execute env reg args secrets ctx corr s).2.implCalls = s.implCalls + 1 ∧
         ∃ e, (RigRuntime.execute env reg args secrets ctx corr s).1.error = some e ∧
           e.type = .internal_error))) := by
  refine ⟨?_, ?_, ?_⟩
  · intro k err m hgen htyped hk1 hkB
    have h := execGo_typed env reg args secrets ctx corr k err m s.policy.retries.toNat
      hgen htyped hkB (k - 1) (s.policy.retries.toNat + 1) 0 s (by omega) (by omega) rfl
    unfold RigRuntime.execute
    refine ⟨h.1, ?_⟩
    rw [h.2]
    omega
  · intro m hgen
    have h := execGo_allGeneric env reg args secrets ctx corr m s.policy.retries.toNat
      (fun i hi => hgen i hi) s.policy.retries.toNat (s.policy.retries.toNat + 1) 0 s
      (by omega) (by omega) rfl
    unfold RigRuntime.execute
    refine ⟨?_, ⟨_, h.1, rfl⟩⟩
    rw [h.2]
    push_cast
    rw [Int.toNat_of_nonneg hret]
  · intro out hok hval
    have h := execGo_badOutput env reg args secrets ctx corr out hok hval
      (s.policy.retries.toNat + 1) s
    unfold RigRuntime.execute
    exact ⟨h.2, ⟨_, h.1, rfl⟩⟩

/-- C3 witness: against the default policy (`retries = 1`), an
always-generically-failing implementation is invoked exactly twice and yields
`upstream_error`. -/
theorem C3_witness :
    ((RigRuntime.execute envT genReg (Json.obj []) [] {} "c" st0).2.implCalls : Int) =
      st0.implCalls + st0.policy.retries + 1 :=
  ((C3_retry_policy envT genReg (Json.obj []) [] {} "c" st0 (by decide)).2.1
    (fun _ => "boom") (fun i _ => rfl)).1

/-- C4: an approval token is consumed at most once.  Immediately after
`ApprovalStore.create`, the first `pop` returns the stored
`{tool_name, args, ctx}` record, a second `pop` of the same token returns
not-present, and a second `approve_and_call` on any token (after a first one
consumed it) returns `ok = false` with error type `not_found` and does not
invoke any tool implementation. -/
theorem C4_single_use (env : Env) (s : RuntimeState) (tool_name : String)
    (args : Json) (ctx : CallContext) (token : String) :
    ((ApprovalStore.pop (ApprovalStore.create env s tool_name args ctx).2
        (ApprovalStore.create env s tool_name args ctx).1).1 =
      some ⟨tool_name, args, ctx⟩ ∧
     (ApprovalStore.pop
        (ApprovalStore.pop (ApprovalStore.create env s tool_name args ctx).2
          (ApprovalStore.create env s tool_name args ctx).1).2
        (ApprovalStore.create env s tool_name args ctx).1).1 = none ∧
     ((RigRuntime.approve_and_call env (RigRuntime.approve_and_call env s token).2
        token).1.ok = false ∧
      (∃ e, (RigRuntime.approve_and_call env (RigRuntime.approve_and_call env s token).2
        token).1.error = some e ∧ e.type = .not_found) ∧
      (RigRuntime.approve_and_call env (RigRuntime.approve_and_call env s token).2
        token).2.implCalls =
        (RigRuntime.approve_and_call env s token).2.implCalls)) := by
  refine ⟨?_, ?_, ?_⟩
  · unfold ApprovalStore.create ApprovalStore.pop freshUuid
    simp [alistFind_cons]
  · unfold ApprovalStore.create ApprovalStore.pop freshUuid
    simp only
    exact alistFind_filter_ne _ _
  · have hclear := approve_clears_token env s token
    obtain ⟨h1, _, h3, _⟩ :=
      approve_notFound_token env (RigRuntime.approve_and_call env s token).2 token hclear
    rw [h1, h3]
    exact ⟨rfl, ⟨_, rfl, rfl⟩, rfl⟩

def tdefA : ToolDef :=
  { name := "alpha", input_schema := .obj [], output_schema := .obj [], error_schema := .obj [] }

def tdefB : ToolDef :=
  { name := "beta", input_schema := .obj [], output_schema := .obj [], error_schema := .obj [] }

def tdefDup : ToolDef :=
  { name := "alpha", description := "a second definition with a colliding name"
    input_schema := .obj [], output_schema := .obj [], error_schema := .obj [] }

/-- C5: the Interface Hash depends only on the set of registered definitions.
Registering the same duplicate-free definitions in any two orders makes both
registrations succeed and produces the same `compute_interface_hash` value,
which is a 64-character lowercase hex SHA-256 digest. -/
theorem C5_interface_hash_order (defs1 defs2 : List ToolDef)
    (hperm : defs1.Perm defs2) (hnd : (defs1.map ToolDef.name).Nodup) :
    ((ToolRegistry.register_tools {} defs1).2 = none ∧
     (ToolRegistry.register_tools {} defs2).2 = none ∧
     ToolRegistry.compute_interface_hash (ToolRegistry.register_tools {} defs1).1.tools =
       ToolRegistry.compute_interface_hash (ToolRegistry.register_tools {} defs2).1.tools ∧
     isHex64 (ToolRegistry.compute_interface_hash
       (ToolRegistry.register_tools {} defs1).1.tools)) := by
  have hnd2 : (defs2.map ToolDef.name).Nodup := ((hperm.map ToolDef.name).nodup_iff).mp hnd
  have hr1 : ToolRegistry.register_tools {} defs1 =
      ({ tools := defs1.map (fun u => (u.name, u)) }, none) := by
    have h := register_tools_fresh defs1 {} (fun t _ => rfl) hnd []
    simpa using h
  have hr2 : ToolRegistry.register_tools {} defs2 =
      ({ tools := defs2.map (fun u => (u.name, u)) }, none) := by
    have h := register_tools_fresh defs2 {} (fun t _ => rfl) hnd2 []
    simpa using h
  have hk1 : (defs1.map (fun u => (u.name, u))).map Prod.fst = defs1.map ToolDef.name := by
    simp [List.map_map, Function.comp]
  have hk2 : (defs2.map (fun u => (u.name, u))).map Prod.fst = defs2.map ToolDef.name := by
    simp [List.map_map, Function.comp]
  have hfind : ∀ n, alistFind (defs1.map (fun u => (u.name, u))) n =
      alistFind (defs2.map (fun u => (u.name, u))) n := by
    intro n
    refine alistFind_perm (hperm.map _) ?_ n
    rw [hk1]
    exact hnd
  refine ⟨by rw [hr1], by rw [hr2], ?_, ?_⟩
  · rw [hr1, hr2]
    unfold ToolRegistry.compute_interface_hash
    dsimp only
    have hnames : sortStrings ((defs1.map (fun u => (u.name, u))).map Prod.fst) =
        sortStrings ((defs2.map (fun u => (u.name, u))).map Prod.fst) := by
      rw [hk1, hk2]
      exact sortStrings_perm_eq (hperm.map ToolDef.name)
    rw [hnames]
    congr 4
    apply List.map_congr_left
    intro n _
    rw [hfind n]
  · rw [hr1]
    exact sha256hex_isHex64 _

/-- C5 witness: two concrete registries built from the same two definitions
in opposite orders hash identically. -/
theorem C5_witness :
    ToolRegistry.compute_interface_hash
        (ToolRegistry.register_tools {} [tdefA, tdefB]).1.tools =
      ToolRegistry.compute_interface_hash
        (ToolRegistry.register_tools {} [tdefB, tdefA]).1.tools :=
  (C5_interface_hash_order [tdefA, tdefB] [tdefB, tdefA]
    (List.Perm.swap tdefB tdefA []) (by decide)).2.2.1

def aliceAB : Json := .obj [("name", .str "Alice"), ("age", .int 30)]

def aliceBA : Json := .obj [("age", .int 30), ("name", .str "Alice")]

def bobAB : Json := .obj [("name", .str "Bob"), ("age", .int 30)]

/-- C6: `compute_input_hash` is invariant under object key order at every
nesting level (`jeqv` relates mappings with the same key-value pairs up to
key order, recursively); the concrete Alice orderings hash identically while
Alice and Bob hash differently; and every hash is a 64-character lowercase
hex string. -/
theorem C6_input_hash :
    ((∀ a b, jeqv a b → compute_input_hash a = compute_input_hash b) ∧
     compute_input_hash aliceAB = compute_input_hash aliceBA ∧
     compute_input_hash aliceAB ≠ compute_input_hash bobAB ∧
     (∀ args, isHex64 (compute_input_hash args))) := by
  refine ⟨fun a b h => jeqv_compute_input_hash h, by decide, by decide,
    fun args => sha256hex_isHex64 _⟩

/-- C6 witness: the key-order-invariance clause applied to the two concrete
Alice orderings. -/
theorem C6_witness :
    compute_input_hash aliceAB = compute_input_hash aliceBA :=
  C6_input_hash.1 aliceAB aliceBA (by
    show jeqv aliceAB aliceBA
    unfold aliceAB aliceBA
    simp only [jeqv]
    refine ⟨by decide, by decide,
      [("name", Json.str "Alice"), ("age", Json.int 30)], ?_, ?_⟩
    · simp [jeqvPairs, jeqv]
    · exact List.Perm.swap _ _ [])

/-- C7: `pack`, `pack_version`, `interface_hash` and `pack_set_version` are
present on every `ToolResult` produced for a registered tool name, on every
branch of `call` (policy_blocked, validation_error, approval_required, typed
error, upstream_error, internal_error, success — the environment, policy and
implementation are arbitrary, so all branches are covered) and on the
executing branch of `approve_and_call`. -/
theorem C7_provenance (env : Env) (s : RuntimeState) (tool_name : String) (args : Json)
    (ctx : CallContext) (reg : RegisteredTool) (token : String) (item : Pending)
    (l : List AuditEvent) (hlog : s.auditEvents = some l) :
    ((alistFind s.tools tool_name = some reg →
       ((RigRuntime.call env s tool_name args ctx).1.pack.isSome = true ∧
        (RigRuntime.call env s tool_name args ctx).1.pack_version.isSome = true ∧
        (RigRuntime.call env s tool_name args ctx).1.interface_hash.isSome = true ∧
        (RigRuntime.call env s tool_name args ctx).1.pack_set_version.isSome = true)) ∧
     (alistFind s.approvals token = some item →
      alistFind s.tools item.tool_name = some reg →
       ((RigRuntime.approve_and_call env s token).1.pack.isSome = true ∧
        (RigRuntime.approve_and_call env s token).1.pack_version.isSome = true ∧
        (RigRuntime.approve_and_call env s token).1.interface_hash.isSome = true ∧
        (RigRuntime.approve_and_call env s token).1.pack_set_version.isSome = true))) := by
  constructor
  · intro hreg
    obtain ⟨e, _, _, _, h4⟩ := call_spec env s tool_name args ctx l hlog
    obtain ⟨p1, p2, p3, p4⟩ := h4 reg hreg
    exact ⟨by rw [p1]; rfl, by rw [p2]; rfl, by rw [p3]; rfl, by rw [p4]; rfl⟩
  · intro hf hr
    obtain ⟨e, _, _, _, q1, q2, q3, q4, _⟩ := approve_found_spec env s token item reg l hf hr hlog
    exact ⟨by rw [q1]; rfl, by rw [q2]; rfl, by rw [q3]; rfl, by rw [q4]; rfl⟩

/-- C7 witness: a concrete call against the registered echo tool carries all
four provenance fields. -/
theorem C7_witness :
    (RigRuntime.call envT st0 "echo" (Json.obj []) {}).1.pack.isSome = true :=
  ((C7_provenance envT st0 "echo" (Json.obj []) {} echoReg "tok" pendEcho [] rfl).1 rfl).1

/-- C8, counterexample: for the slot list `["ENV:FOO"]` the first slot is not
prefixed `env:` (Python `startswith` is case-sensitive), so the claim
requires the marker `env:ENV:FOO`; the code emits `ENV:FOO` as-is. -/
theorem C8_counterexample :
    (pyStartswith "ENV:FOO" "env:" = false ∧
     RigRuntime.get_auth_marker ["ENV:FOO"] none = some "ENV:FOO" ∧
     RigRuntime.get_auth_marker ["ENV:FOO"] none ≠ some ("env:" ++ "ENV:FOO")) := by
  decide

/-- C8 (amended): the marker is derived from the first declared slot — absent
when there are no slots; the slot emitted as-is when it is already prefixed
`env:` or `ENV:`; otherwise `env:<SLOT>`. -/
theorem C8_auth_marker (tid : Option String) :
    (RigRuntime.get_auth_marker [] tid = none ∧
     (∀ first rest, (pyStartswith first "env:" || pyStartswith first "ENV:") = true →
        RigRuntime.get_auth_marker (first :: rest) tid = some first) ∧
     (∀ first rest, (pyStartswith first "env:" || pyStartswith first "ENV:") = false →
        RigRuntime.get_auth_marker (first :: rest) tid = some ("env:" ++ first))) := by
  refine ⟨rfl, ?_, ?_⟩ <;> intro first rest h <;>
    simp [RigRuntime.get_auth_marker, h]

/-- C8 witness: a plain slot name gets the `env:` marker. -/
theorem C8_witness :
    RigRuntime.get_auth_marker ["STRIPE_API_KEY"] none = some ("env:" ++ "STRIPE_API_KEY") :=
  (C8_auth_marker none).2.2 "STRIPE_API_KEY" [] (by decide)

/-- C9: `approve_and_call` re-evaluates no policy and re-validates no input:
its result is identical for every value of `policy.allowed_tools` at approval
time, and — even under the empty allow-list — the stored call still invokes
the implementation at least once while every schema validation it performs is
against the tool's output schema (never the input schema). -/
theorem C9_approval_bypasses_policy (env : Env) (s : RuntimeState) (token : String) :
    ((∀ A B : Option (List String),
        (RigRuntime.approve_and_call env
            { s with policy := { s.policy with allowed_tools := A } } token).1 =
          (RigRuntime.approve_and_call env
            { s with policy := { s.policy with allowed_tools := B } } token).1) ∧
     (∀ item reg, alistFind s.approvals token = some item →
        alistFind s.tools item.tool_name = some reg →
        s.policy.allowed_tools = some [] →
        (s.implCalls + 1 ≤ (RigRuntime.approve_and_call env s token).2.implCalls ∧
         ∀ p ∈ (RigRuntime.approve_and_call env s token).2.validateCalls,
           p ∈ s.validateCalls ∨ p.2 = reg.tool.output_schema))) := by
  constructor
  · intro A B
    rw [approve_policy env s token { s.policy with allowed_tools := A } rfl,
        approve_policy env s token { s.policy with allowed_tools := B } rfl]
  · intro item reg hf hr _
    exact approve_found_ghost env s token item reg hf hr

/-- C9 witness: with the empty allow-list in force, approving the stored echo
call still invokes the implementation. -/
theorem C9_witness :
    stApproved.implCalls + 1 ≤
      (RigRuntime.approve_and_call envT stApproved "tok").2.implCalls :=
  ((C9_approval_bypasses_policy envT stApproved "tok").2 pendEcho echoReg rfl rfl rfl).1

/-- C10: `register_tools` is not atomic on failure.  When the input list is
`pre ++ d :: rest` with `pre` fresh and duplicate-free and `d` colliding
(with the existing catalog or with `pre`), the duplicate-name error is
raised, yet every definition of `pre` is already registered and remains
visible to `get`, `list_tools` and `snapshot`. -/
theorem C10_partial_registration (r : ToolRegistry) (pre rest : List ToolDef) (d : ToolDef)
    (hfresh : ∀ t ∈ pre, alistFind r.tools t.name = none)
    (hnd : (pre.map ToolDef.name).Nodup)
    (hdup : (alistFind r.tools d.name).isSome ∨ d.name ∈ pre.map ToolDef.name) :
    ((ToolRegistry.register_tools r (pre ++ d :: rest)).2 =
       some ("duplicate tool name: " ++ d.name) ∧
     ∀ t ∈ pre,
       ((ToolRegistry.register_tools r (pre ++ d :: rest)).1.get t.name = some t ∧
        t ∈ (ToolRegistry.register_tools r (pre ++ d :: rest)).1.list_tools ∧
        alistFind ((ToolRegistry.register_tools r (pre ++ d :: rest)).1.snapshot).tools
          t.name = some t)) := by
  have hstep := register_tools_fresh pre r hfresh hnd (d :: rest)
  have hfind : ∀ t ∈ pre,
      alistFind (r.tools ++ pre.map (fun u => (u.name, u))) t.name = some t := by
    intro t ht
    rw [alistFind_append, hfresh t ht]
    exact alistFind_map_self pre t ht hnd
  have hdup2 : (alistFind (r.tools ++ pre.map (fun u => (u.name, u))) d.name).isSome := by
    rw [alistFind_append]
    rcases hdup with h | h
    · cases hfd : alistFind r.tools d.name with
      | none => rw [hfd] at h; cases h
      | some v => simp [hfd]
    · obtain ⟨t, ht, hname⟩ := List.mem_map.mp h
      cases hfd : alistFind r.tools d.name with
      | none =>
        simp only [hfd]
        rw [← hname]
        rw [alistFind_map_self pre t ht hnd]
        rfl
      | some v => simp [hfd]
  have hres := register_tools_dup_head
    { r with tools := r.tools ++ pre.map (fun u => (u.name, u)) } d rest hdup2
  rw [hstep, hres]
  refine ⟨rfl, ?_⟩
  intro t ht
  refine ⟨hfind t ht, ?_, hfind t ht⟩
  refine mem_list_tools _ t (hfind t ht) ?_
  rw [List.map_append]
  refine List.mem_append.mpr (Or.inr ?_)
  have hmk : (pre.map (fun u => (u.name, u))).map Prod.fst = pre.map ToolDef.name := by
    simp [List.map_map, Function.comp]
  rw [hmk]
  exact List.mem_map_of_mem ToolDef.name ht

/-- C10 witness: registering `[alpha, alpha-dup]` raises the duplicate error
while the first `alpha` stays registered. -/
theorem C10_witness :
    ((ToolRegistry.register_tools {} [tdefA, tdefDup]).2 =
       some ("duplicate tool name: " ++ tdefDup.name) ∧
     (ToolRegistry.register_tools {} [tdefA, tdefDup]).1.get tdefA.name = some tdefA) := by
  have h := C10_partial_registration {} [tdefA] [] tdefDup (fun t _ => rfl) (by decide)
    (Or.inr (by decide))
  exact ⟨h.1, (h.2 tdefA (List.mem_cons_self _ _)).1⟩
